import Mathlib

/-!
# Verification of the streaming completion orchestration engine

Shallow embedding of the llama.cpp webui streaming chat engine:

* `src/tools/server/webui/src/lib/services/chat.ts`
  (`ChatService.handleStreamResponse`, its inner `flushToolCalls` and
  tool-call buffer, `injectSystemMessage`)
* `src/tools/server/webui/src/lib/stores/editor.svelte.ts`
  (`ChatStore.streamChatCompletion`, the tool-round loop)
* the editor tool executor `executeEditorTool` (src/unnamed/part_002,
  `src/lib/ai/editorTools.ts`).

The TypeScript code is single-threaded and callback driven; the embedding
uses the sequential semantics in which every callback runs to completion
before the next stream record is processed.  JavaScript `Map` objects are
modelled as association lists preserving insertion order, JS truthiness of
optional strings as "present and non-empty", and `crypto.randomUUID` as a
deterministic fresh-id counter (only uniqueness of the generated ids is
observable).
-/

namespace WebuiChat

/-- A streaming tool-call delta, `ApiToolCallDelta` from the webui api types:
`{index, id?, function?: {name?, arguments?}}`.  `index` is typed as required
in TypeScript but the consumer guards it with `tc.index ?? 0`, so it is kept
optional here. -/
structure ApiToolCallDelta where
  index : Option Nat
  id : Option String
  fname : Option String
  farguments : Option String
  deriving DecidableEq

/-- An assembled tool call, `ApiToolCall` from the webui api types:
`{id?, type: 'function', function: {name, arguments}}`.  The constant
`type: 'function'` field carries no information and is omitted. -/
structure ApiToolCall where
  id : Option String
  fname : String
  farguments : String
  deriving DecidableEq

/-- JS truthiness of an optional string field: `undefined` and `''` are falsy. -/
def optTruthy (o : Option String) : Bool :=
  o.getD "" ≠ ""

/-- The fresh entry created by `handleStreamResponse` when an index is first
seen: `{id: undefined, type: 'function', function: {name: '', arguments: ''}}`. -/
def emptyToolCall : ApiToolCall :=
  ⟨none, "", ""⟩

/-- The buffered-delta update of one entry, the body of the
`for (const tc of delta.tool_calls)` loop in `handleStreamResponse`
(chat.ts lines 304-307):
`if (tc.id) entry.id = tc.id; if (tc.function?.name) entry.function.name =
tc.function.name; if (tc.function?.arguments) entry.function.arguments +=
tc.function.arguments;`. -/
def applyDeltaToEntry (entry : ApiToolCall) (tc : ApiToolCallDelta) : ApiToolCall :=
  let entry := if optTruthy tc.id then { entry with id := tc.id } else entry
  let entry := if optTruthy tc.fname then { entry with fname := tc.fname.getD "" } else entry
  if optTruthy tc.farguments then
    { entry with farguments := entry.farguments ++ tc.farguments.getD "" }
  else entry

/-- The tool-call buffer, `toolCallBuffer : Map<number, ApiToolCall>`,
modelled as an association list in insertion order. -/
def ToolCallBuffer := List (Nat × ApiToolCall)

instance : DecidableEq ToolCallBuffer :=
  inferInstanceAs (DecidableEq (List (Nat × ApiToolCall)))

/-- `toolCallBuffer.get(idx)`. -/
def bufGet : ToolCallBuffer → Nat → Option ApiToolCall
  | [], _ => none
  | (j, c) :: rest, i => if j = i then some c else bufGet rest i

/-- `toolCallBuffer.set(idx, entry)`: replace in place, or append on first
insertion (JS `Map` keeps insertion order). -/
def bufSet : ToolCallBuffer → Nat → ApiToolCall → ToolCallBuffer
  | [], i, c => [(i, c)]
  | (j, d) :: rest, i, c => if j = i then (i, c) :: rest else (j, d) :: bufSet rest i c

/-- Processing one `toolCallDelta` against the buffer (chat.ts lines 293-308):
`const idx = tc.index ?? 0; let entry = toolCallBuffer.get(idx); if (!entry)
{ entry = …; toolCallBuffer.set(idx, entry); } …` followed by the three field
updates of `applyDeltaToEntry`. -/
def applyToolCallDelta (buf : ToolCallBuffer) (tc : ApiToolCallDelta) : ToolCallBuffer :=
  let idx := tc.index.getD 0
  let entry := (bufGet buf idx).getD emptyToolCall
  bufSet buf idx (applyDeltaToEntry entry tc)

/-- Insertion sort of buffer entries by index, modelling
`Array.from(toolCallBuffer.entries()).sort((a, b) => a[0] - b[0])`.
The keys of a `Map` are distinct, so any sort producing ascending keys agrees
with the JS numeric sort. -/
def insertByIdx (p : Nat × ApiToolCall) : List (Nat × ApiToolCall) → List (Nat × ApiToolCall)
  | [] => [p]
  | q :: rest => if p.1 ≤ q.1 then p :: q :: rest else q :: insertByIdx p rest

/-- See `insertByIdx`. -/
def sortByIdx : List (Nat × ApiToolCall) → List (Nat × ApiToolCall)
  | [] => []
  | p :: rest => insertByIdx p (sortByIdx rest)

/-- `flushToolCalls` (chat.ts lines 250-258).  Returns the list handed to
`onToolCalls` (`none` when the callback is not invoked) together with the
buffer afterwards:
`if (!toolCallBuffer.size) return; const calls = …sort…map…filter(c =>
c.function?.name); if (calls.length) onToolCalls?.(calls);
toolCallBuffer.clear();`. -/
def flushToolCalls (buf : ToolCallBuffer) : Option (List ApiToolCall) × ToolCallBuffer :=
  match buf with
  | [] => (none, [])
  | b =>
    let calls := ((sortByIdx b).map (·.2)).filter (fun c => c.fname ≠ "")
    (if calls ≠ [] then some calls else none, [])

/-- Concatenation of the argument fragments of a delta sequence in arrival
order (absent fragments contribute the empty string). -/
def argsConcat (e : String) (ds : List ApiToolCallDelta) : String :=
  ds.foldl (fun acc d => acc ++ d.farguments.getD "") e

/-- The last non-empty name fragment of a delta sequence, if any. -/
def lastNameFragment : List ApiToolCallDelta → Option String
  | [] => none
  | d :: rest =>
    match lastNameFragment rest with
    | some s => some s
    | none => if optTruthy d.fname then some (d.fname.getD "") else none

section BufferLemmas

theorem lastNameFragment_cons (d : ApiToolCallDelta) (rest : List ApiToolCallDelta) :
    lastNameFragment (d :: rest) =
      match lastNameFragment rest with
      | some s => some s
      | none => if optTruthy d.fname then some (d.fname.getD "") else none := rfl

theorem String.append_empty_right (s : String) : s ++ "" = s := by
  cases s with
  | mk data => show String.mk (data ++ []) = String.mk data; rw [List.append_nil]

/-- Field-level effect of one delta on the accumulated arguments. -/
theorem applyDeltaToEntry_farguments (e : ApiToolCall) (d : ApiToolCallDelta) :
    (applyDeltaToEntry e d).farguments = e.farguments ++ d.farguments.getD "" := by
  unfold applyDeltaToEntry
  cases hid : optTruthy d.id <;> cases hn : optTruthy d.fname <;>
    cases ha : optTruthy d.farguments <;>
    simp [hid, hn, ha] <;>
    simp [optTruthy] at ha <;>
    rw [ha, String.append_empty_right]

/-- Field-level effect of one delta on the name: assignment, not append. -/
theorem applyDeltaToEntry_fname (e : ApiToolCall) (d : ApiToolCallDelta) :
    (applyDeltaToEntry e d).fname =
      if optTruthy d.fname then d.fname.getD "" else e.fname := by
  unfold applyDeltaToEntry
  cases hid : optTruthy d.id <;> cases hn : optTruthy d.fname <;>
    cases ha : optTruthy d.farguments <;> simp [hid, hn, ha]

/-- Folding deltas over the entry accumulates the argument fragments. -/
theorem foldl_entry_farguments (ds : List ApiToolCallDelta) (e : ApiToolCall) :
    (ds.foldl applyDeltaToEntry e).farguments = argsConcat e.farguments ds := by
  induction ds generalizing e with
  | nil => rfl
  | cons d rest ih =>
      show ((d :: rest).foldl applyDeltaToEntry e).farguments = _
      rw [List.foldl_cons, ih]
      unfold argsConcat
      rw [List.foldl_cons, applyDeltaToEntry_farguments]

/-- Folding deltas over the entry keeps the last non-empty name fragment. -/
theorem foldl_entry_fname (ds : List ApiToolCallDelta) (e : ApiToolCall) :
    (ds.foldl applyDeltaToEntry e).fname = (lastNameFragment ds).getD e.fname := by
  induction ds generalizing e with
  | nil => rfl
  | cons d rest ih =>
      rw [List.foldl_cons, ih, lastNameFragment_cons]
      cases h : lastNameFragment rest with
      | some s => simp [h]
      | none =>
          cases hn : optTruthy d.fname with
          | false => simp [h, hn, applyDeltaToEntry_fname]
          | true => simp [h, hn, applyDeltaToEntry_fname]

/-- A produced last name fragment is non-empty (it passed the truthiness
filter). -/
theorem lastNameFragment_ne_empty (ds : List ApiToolCallDelta) (s : String)
    (hs : lastNameFragment ds = some s) : s ≠ "" := by
  induction ds with
  | nil => exact absurd hs (by simp [lastNameFragment])
  | cons d rest ih =>
      rw [lastNameFragment_cons] at hs
      cases h : lastNameFragment rest with
      | some t =>
          rw [h] at hs
          have ht : t = s := Option.some.inj hs
          exact ih (h.trans (by rw [ht]))
      | none =>
          rw [h] at hs
          cases hn : optTruthy d.fname with
          | false => rw [hn] at hs; exact absurd hs (by simp)
          | true =>
              rw [hn] at hs
              simp only [if_pos rfl] at hs
              have := Option.some.inj hs
              rw [← this]
              simpa [optTruthy] using hn

/-- The whole-buffer update is the entry update at the delta's index. -/
theorem applyToolCallDelta_singleton (i : Nat) (e : ApiToolCall) (d : ApiToolCallDelta)
    (hd : d.index.getD 0 = i) :
    applyToolCallDelta [(i, e)] d = [(i, applyDeltaToEntry e d)] := by
  unfold applyToolCallDelta
  rw [hd]
  simp [bufGet, bufSet]

/-- A delta sequence that targets a single index keeps the buffer a singleton
at that index and folds the deltas into the entry. -/
theorem foldl_buffer_singleton (ds : List ApiToolCallDelta) (i : Nat) (e : ApiToolCall)
    (h : ∀ d ∈ ds, d.index.getD 0 = i) :
    ds.foldl applyToolCallDelta [(i, e)] = [(i, ds.foldl applyDeltaToEntry e)] := by
  induction ds generalizing e with
  | nil => rfl
  | cons d rest ih =>
      rw [List.foldl_cons, List.foldl_cons,
        applyToolCallDelta_singleton i e d (h d (List.mem_cons_self d rest))]
      exact ih _ (fun d' hd' => h d' (List.mem_cons_of_mem d hd'))

/-- The first delta of a same-index sequence creates the singleton buffer. -/
theorem applyToolCallDelta_nil (i : Nat) (d : ApiToolCallDelta) (hd : d.index.getD 0 = i) :
    applyToolCallDelta [] d = [(i, applyDeltaToEntry emptyToolCall d)] := by
  unfold applyToolCallDelta
  rw [hd]
  rfl

end BufferLemmas

/-- C2 — For every sequence of tool-call-delta events targeting the same
index, however the argument fragments are split across stream chunks, the
flushed call's arguments string equals the concatenation of all argument
fragments in arrival order (`argsConcat "" ds`), which is also the result of
delivering the whole concatenation in a single delta. -/
theorem toolCallBuffer_flush_concatenates_arguments (i : Nat) (ds : List ApiToolCallDelta)
    (hne : ds ≠ []) (hidx : ∀ d ∈ ds, d.index.getD 0 = i)
    (hname : (lastNameFragment ds).isSome) :
    ∃ c : ApiToolCall,
      flushToolCalls (ds.foldl applyToolCallDelta []) = (some [c], []) ∧
      c.farguments = argsConcat "" ds := by
  rcases ds with _ | ⟨d, rest⟩
  · exact absurd rfl hne
  rw [List.foldl_cons, applyToolCallDelta_nil i d (hidx d (List.mem_cons_self d rest)),
    foldl_buffer_singleton rest i _ (fun d' hd' => hidx d' (List.mem_cons_of_mem d hd'))]
  refine ⟨rest.foldl applyDeltaToEntry (applyDeltaToEntry emptyToolCall d), ?_, ?_⟩
  · have hn : (rest.foldl applyDeltaToEntry (applyDeltaToEntry emptyToolCall d)).fname ≠ "" := by
      rw [foldl_entry_fname]
      rcases Option.isSome_iff_exists.mp hname with ⟨s, hs⟩
      have hs' : lastNameFragment rest = some s ∨
          (lastNameFragment rest = none ∧ optTruthy d.fname = true) := by
        rw [lastNameFragment_cons] at hs
        cases h : lastNameFragment rest with
        | some t =>
            rw [h] at hs
            have ht : t = s := Option.some.inj hs
            exact Or.inl (by rw [ht])
        | none =>
            rw [h] at hs
            cases hd : optTruthy d.fname with
            | false => rw [hd] at hs; exact absurd hs (by simp)
            | true => exact Or.inr ⟨rfl, rfl⟩
      rcases hs' with h | ⟨h0, hd⟩
      · rw [h, Option.getD_some]
        exact lastNameFragment_ne_empty rest s h
      · rw [h0, Option.getD_none, applyDeltaToEntry_fname]
        simp only [hd, if_pos rfl]
        simpa [optTruthy] using hd
    unfold flushToolCalls
    simp only [sortByIdx, insertByIdx, List.map_cons, List.map_nil]
    rw [List.filter_cons]
    simp only [hn, decide_eq_true_eq, if_pos, List.filter_nil]
    simp [hn]
  · rw [foldl_entry_farguments, applyDeltaToEntry_farguments]
    show argsConcat (("" : String) ++ d.farguments.getD "") rest = argsConcat "" (d :: rest)
    unfold argsConcat
    rw [List.foldl_cons]

/-- C2 witness: the fragments `"{\"a\":"`, `""`, `"1}"` arriving in three
chunks flush to a single call whose arguments are their concatenation. -/
theorem toolCallBuffer_flush_concatenates_arguments_witness :
    ∃ c : ApiToolCall,
      flushToolCalls
        ([⟨some 2, some "id7", some "get_editor_code", some "\x7b\"a\":"⟩,
          ⟨some 2, none, none, some ""⟩,
          ⟨some 2, none, none, some "1\x7d"⟩].foldl applyToolCallDelta []) = (some [c], []) ∧
      c.farguments =
        argsConcat ""
          [⟨some 2, some "id7", some "get_editor_code", some "\x7b\"a\":"⟩,
           ⟨some 2, none, none, some ""⟩,
           ⟨some 2, none, none, some "1\x7d"⟩] :=
  toolCallBuffer_flush_concatenates_arguments 2 _ (by decide) (by decide) (by decide)

/-- C3 counterexample: two deltas at index 0 carrying the name fragments
`"foo"` then `"bar"` leave the buffered name `"bar"`, not the concatenation
`"foobar"`: the claim that later name fragments are appended is false. -/
theorem toolCall_name_fragment_not_appended :
    bufGet
        ([⟨some 0, some "a", some "foo", none⟩,
          ⟨some 0, none, some "bar", none⟩].foldl applyToolCallDelta []) 0 =
      some ⟨some "a", "bar", ""⟩ ∧
    ("bar" : String) ≠ "foo" ++ "bar" := by
  constructor
  · rfl
  · decide

/-- C3 amended — a later delta that carries a non-empty name fragment
replaces the buffered call's name rather than appending to it: after any
same-index delta sequence the buffered name is the LAST non-empty name
fragment (falling back to the initial name when none arrived), while the
arguments are still the concatenation of all fragments. -/
theorem toolCall_name_fragment_replaces (i : Nat) (ds : List ApiToolCallDelta)
    (hne : ds ≠ []) (hidx : ∀ d ∈ ds, d.index.getD 0 = i) :
    ∃ e : ApiToolCall,
      bufGet (ds.foldl applyToolCallDelta []) i = some e ∧
      e.fname = (lastNameFragment ds).getD "" ∧
      e.farguments = argsConcat "" ds := by
  rcases ds with _ | ⟨d, rest⟩
  · exact absurd rfl hne
  rw [List.foldl_cons, applyToolCallDelta_nil i d (hidx d (List.mem_cons_self d rest)),
    foldl_buffer_singleton rest i _ (fun d' hd' => hidx d' (List.mem_cons_of_mem d hd'))]
  refine ⟨rest.foldl applyDeltaToEntry (applyDeltaToEntry emptyToolCall d),
    by simp [bufGet], ?_, ?_⟩
  · rw [foldl_entry_fname, applyDeltaToEntry_fname, lastNameFragment_cons]
    cases h : lastNameFragment rest with
    | some s => simp [h]
    | none =>
        cases hn : optTruthy d.fname with
        | false => simp [h, hn, emptyToolCall]
        | true => simp [h, hn]
  · rw [foldl_entry_farguments, applyDeltaToEntry_farguments]
    show argsConcat (("" : String) ++ d.farguments.getD "") rest = argsConcat "" (d :: rest)
    unfold argsConcat
    rw [List.foldl_cons]

/-- C3 amended witness: name fragments `"foo"` then `"bar"` leave name
`"bar"` (the last fragment). -/
theorem toolCall_name_fragment_replaces_witness :
    ∃ e : ApiToolCall,
      bufGet
          ([⟨some 0, some "a", some "foo", none⟩,
            ⟨some 0, none, some "bar", none⟩].foldl applyToolCallDelta []) 0 = some e ∧
      e.fname =
        (lastNameFragment
          [⟨some 0, some "a", some "foo", none⟩, ⟨some 0, none, some "bar", none⟩]).getD "" ∧
      e.farguments =
        argsConcat ""
          [⟨some 0, some "a", some "foo", none⟩, ⟨some 0, none, some "bar", none⟩] :=
  toolCall_name_fragment_replaces 0 _ (by decide) (by decide)

/-! ## JavaScript values and JSON

`executeEditorTool` runs `JSON.parse` on the call's argument string and
`JSON.stringify` on its result objects.  JavaScript values reachable in this
code are modelled by the JSON value universe extended with `undefined`
(produced by absent property reads, never by the parser).  Numbers are kept
as their source lexeme: the executor never re-serialises a parsed number, so
the lexeme is observationally sufficient. -/

inductive Json where
  | null
  | undefined
  | bool (b : Bool)
  | num (lex : String)
  | str (s : String)
  | arr (xs : List Json)
  | obj (kvs : List (String × Json))

/-- Skip JSON whitespace. -/
def skipWs : List Char → List Char
  | [] => []
  | c :: rest => if c = ' ' ∨ c = '\t' ∨ c = '\n' ∨ c = '\r' then skipWs rest else c :: rest

/-- Hexadecimal digit value. -/
def hexVal (c : Char) : Option Nat :=
  if '0' ≤ c ∧ c ≤ '9' then some (c.toNat - 48)
  else if 'a' ≤ c ∧ c ≤ 'f' then some (c.toNat - 87)
  else if 'A' ≤ c ∧ c ≤ 'F' then some (c.toNat - 55)
  else none

/-- JSON string-body scanner (the opening quote already consumed), handling
the escape sequences of ECMA-404; rejects unescaped control characters and
bad escapes like `JSON.parse` does. -/
def parseStrAux : Nat → List Char → List Char → Option (String × List Char)
  | 0, _, _ => none
  | _ + 1, _, [] => none
  | fuel + 1, acc, c :: rest =>
    if c = '"' then some (String.mk acc.reverse, rest)
    else if c = '\\' then
      match rest with
      | '"' :: r => parseStrAux fuel ('"' :: acc) r
      | '\\' :: r => parseStrAux fuel ('\\' :: acc) r
      | '/' :: r => parseStrAux fuel ('/' :: acc) r
      | 'n' :: r => parseStrAux fuel ('\n' :: acc) r
      | 't' :: r => parseStrAux fuel ('\t' :: acc) r
      | 'r' :: r => parseStrAux fuel ('\r' :: acc) r
      | 'b' :: r => parseStrAux fuel ('\x08' :: acc) r
      | 'f' :: r => parseStrAux fuel ('\x0c' :: acc) r
      | 'u' :: h1 :: h2 :: h3 :: h4 :: r =>
          match hexVal h1, hexVal h2, hexVal h3, hexVal h4 with
          | some a, some b, some c', some d =>
              parseStrAux fuel (Char.ofNat (((a * 16 + b) * 16 + c') * 16 + d) :: acc) r
          | _, _, _, _ => none
      | _ => none
    else if c.toNat < 32 then none
    else parseStrAux fuel (c :: acc) rest

/-- JSON number lexeme: `-?int frac? exp?` with the leading-zero rule. -/
def parseNumber (cs : List Char) : Option (String × List Char) :=
  let (neg, cs1) := match cs with | '-' :: r => (['-'], r) | _ => (([] : List Char), cs)
  let (intPart, cs2) := cs1.span (·.isDigit)
  if intPart = [] then none
  else if intPart.length > 1 ∧ intPart.head? = some '0' then none
  else
    let (fracPart, cs3) : Option (List Char) × List Char :=
      match cs2 with
      | '.' :: r =>
          let (ds, r2) := r.span (fun c : Char => c.isDigit)
          if ds = [] then (none, cs2) else (some ('.' :: ds), r2)
      | _ => (none, cs2)
    match fracPart, cs2 with
    | none, '.' :: _ => none
    | _, _ =>
      let (expPart, cs4) : Option (List Char) × List Char :=
        match cs3 with
        | e :: r =>
          if e = 'e' ∨ e = 'E' then
            let (sgn, r1) : List Char × List Char := match r with
              | s :: r2 => if s = '+' ∨ s = '-' then ([s], r2) else (([] : List Char), r)
              | [] => ([], r)
            let (ds, r2) := r1.span (fun c : Char => c.isDigit)
            if ds = [] then (none, cs3) else (some (e :: (sgn ++ ds)), r2)
          else (none, cs3)
        | [] => (none, cs3)
      match expPart, cs3 with
      | none, e :: _ =>
          if e = 'e' ∨ e = 'E' then none
          else some (String.mk (neg ++ intPart ++ (fracPart.getD []) ++ []), cs3)
      | none, [] => some (String.mk (neg ++ intPart ++ (fracPart.getD []) ++ []), cs3)
      | some ex, _ => some (String.mk (neg ++ intPart ++ (fracPart.getD []) ++ ex), cs4)

mutual

/-- Recursive-descent JSON value parser (fuel-indexed; any fuel of at least
the input length suffices since every recursive call consumes a character). -/
def parseVal : Nat → List Char → Option (Json × List Char)
  | 0, _ => none
  | fuel + 1, cs =>
    match skipWs cs with
    | 'n' :: 'u' :: 'l' :: 'l' :: rest => some (.null, rest)
    | 't' :: 'r' :: 'u' :: 'e' :: rest => some (.bool true, rest)
    | 'f' :: 'a' :: 'l' :: 's' :: 'e' :: rest => some (.bool false, rest)
    | '"' :: rest => (parseStrAux (rest.length + 1) [] rest).map (fun (p : String × List Char) => (Json.str p.1, p.2))
    | '[' :: rest =>
        (match skipWs rest with
         | ']' :: r => some (.arr [], r)
         | cs2 => (parseArrItems fuel cs2).map (fun (p : List Json × List Char) => (Json.arr p.1, p.2)))
    | '\x7b' :: rest =>
        (match skipWs rest with
         | '\x7d' :: r => some (.obj [], r)
         | cs2 => (parseObjItems fuel cs2).map (fun (p : List (String × Json) × List Char) => (Json.obj p.1, p.2)))
    | cs' => (parseNumber cs').map (fun (p : String × List Char) => (Json.num p.1, p.2))

/-- Comma-separated array items up to the closing bracket. -/
def parseArrItems : Nat → List Char → Option (List Json × List Char)
  | 0, _ => none
  | fuel + 1, cs =>
    match parseVal fuel cs with
    | none => none
    | some (v, r) =>
      match skipWs r with
      | ',' :: r2 => (parseArrItems fuel r2).map (fun p => (v :: p.1, p.2))
      | ']' :: r2 => some ([v], r2)
      | _ => none

/-- Comma-separated object members up to the closing brace. -/
def parseObjItems : Nat → List Char → Option (List (String × Json) × List Char)
  | 0, _ => none
  | fuel + 1, cs =>
    match skipWs cs with
    | '"' :: rest =>
      match parseStrAux (rest.length + 1) [] rest with
      | none => none
      | some (k, r1) =>
        match skipWs r1 with
        | ':' :: r2 =>
          match parseVal fuel r2 with
          | none => none
          | some (v, r3) =>
            match skipWs r3 with
            | ',' :: r4 => (parseObjItems fuel r4).map (fun p => ((k, v) :: p.1, p.2))
            | '\x7d' :: r4 => some ([(k, v)], r4)
            | _ => none
        | _ => none
    | _ => none

end

/-- `JSON.parse` on a whole string: a value followed only by whitespace;
`none` models the thrown `SyntaxError`. -/
def parseJson (s : String) : Option Json :=
  match parseVal (s.length + 1) s.data with
  | some (v, rest) => if skipWs rest = [] then some v else none
  | none => none

/-- Lower-case hex digit. -/
def hexDigit (n : Nat) : String :=
  String.singleton (Char.ofNat (if n < 10 then 48 + n else 87 + n))

/-- `JSON.stringify` escaping of one character. -/
def escJsonChar (c : Char) : String :=
  if c = '"' then "\\\""
  else if c = '\\' then "\\\\"
  else if c = '\n' then "\\n"
  else if c = '\r' then "\\r"
  else if c = '\t' then "\\t"
  else if c = '\x08' then "\\b"
  else if c = '\x0c' then "\\f"
  else if c.toNat < 32 then "\\u00" ++ hexDigit (c.toNat / 16) ++ hexDigit (c.toNat % 16)
  else String.singleton c

/-- `JSON.stringify` of a string. -/
def quoteJson (s : String) : String :=
  "\"" ++ String.join (s.data.map escJsonChar) ++ "\""

/-- Comma join. -/
def joinComma : List String → String
  | [] => ""
  | [s] => s
  | s :: rest => s ++ "," ++ joinComma rest

mutual

/-- `JSON.stringify`; `none` models the `undefined` result for an
`undefined` input.  `undefined` members of objects are dropped, `undefined`
array elements serialise as `null`, exactly as in JavaScript. -/
def jsonStringify : Json → Option String
  | .undefined => none
  | .null => some "null"
  | .bool true => some "true"
  | .bool false => some "false"
  | .num lex => some lex
  | .str s => some (quoteJson s)
  | .arr xs => some ("[" ++ joinComma (stringifyArr xs) ++ "]")
  | .obj kvs => some ("\x7b" ++ joinComma (stringifyObj kvs) ++ "\x7d")

/-- See `jsonStringify`. -/
def stringifyArr : List Json → List String
  | [] => []
  | x :: xs => (jsonStringify x).getD "null" :: stringifyArr xs

/-- See `jsonStringify`. -/
def stringifyObj : List (String × Json) → List String
  | [] => []
  | (k, v) :: rest =>
    match jsonStringify v with
    | none => stringifyObj rest
    | some sv => (quoteJson k ++ ":" ++ sv) :: stringifyObj rest

end

mutual

/-- JavaScript string coercion of the values reachable here (template
literals, `RegExp` construction, replacement coercion). -/
def jsToString : Json → String
  | .undefined => "undefined"
  | .null => "null"
  | .bool true => "true"
  | .bool false => "false"
  | .num lex => lex
  | .str s => s
  | .arr xs => joinComma (jsToStringList xs)
  | .obj _ => "[object Object]"

/-- Array elements under `toString`: `null`/`undefined` become empty. -/
def jsToStringList : List Json → List String
  | [] => []
  | x :: xs =>
    (match x with
     | .null => ""
     | .undefined => ""
     | v => jsToString v) :: jsToStringList xs

end

/-- JavaScript truthiness of the values reachable here.  A numeric zero
lexeme is falsy. -/
def jsTruthy : Json → Bool
  | .undefined => false
  | .null => false
  | .bool b => b
  | .num lex => lex ≠ "0" ∧ lex ≠ "-0" ∧ lex ≠ "0.0"
  | .str s => s ≠ ""
  | .arr _ => true
  | .obj _ => true

/-- Last-wins member lookup, matching `JSON.parse`'s duplicate-key semantics
over the member list kept in source order. -/
def objGet : List (String × Json) → String → Option Json
  | [], _ => none
  | (k', v) :: rest, k =>
    match objGet rest k with
    | some w => some w
    | none => if k' = k then some v else none

/-- JS property read `v[k]`: `undefined` for absent members and for
non-object bases, a thrown `TypeError` for `null`/`undefined` bases. -/
def Json.getField : Json → String → Except String Json
  | .null, _ => .error "TypeError: cannot read properties of null"
  | .undefined, _ => .error "TypeError: cannot read properties of undefined"
  | .obj kvs, k => .ok ((objGet kvs k).getD .undefined)
  | _, _ => .ok .undefined

/-- JS `.length` read: defined for strings and arrays, `undefined` for the
other objects reachable here, a thrown `TypeError` on `null`/`undefined`. -/
def jsLength : Json → Except String Json
  | .str s => .ok (.num (toString s.length))
  | .arr xs => .ok (.num (toString xs.length))
  | .null => .error "TypeError: cannot read properties of null (reading 'length')"
  | .undefined => .error "TypeError: cannot read properties of undefined (reading 'length')"
  | _ => .ok .undefined

/-! ## The editor tool executor (`src/lib/ai/editorTools.ts`) -/

/-- The webui editor store: `currentCode` starts as the hello-world page and
`setCode` stores whatever value it is handed (JS is untyped, so the stored
value is a `Json` value). -/
structure EditorState where
  currentCode : Json

/-- `EditorStore.currentCode`'s initial value (editor.svelte.ts line 2). -/
def initialEditorState : EditorState :=
  ⟨.str "<html lang=\"en\"><body><h1>Hello World!</h1></body></html>"⟩

/-- The host regular-expression engine behind `new RegExp(pattern, flags)`
and `String.prototype.replace`: a platform parameter of the embedding, not
repository code.  `compile` returns `none` when the host engine rejects the
pattern (the thrown `SyntaxError`); a compiled engine maps a source string
and a replacement string to the replaced output and the match count. -/
structure RegexEngine where
  compile : String → String → Option (String → String → String × Nat)

/-- A degenerate engine on which every pattern fails to compile; used only to
close statements whose executor path never reaches regex compilation. -/
def noRegexEngine : RegexEngine :=
  ⟨fun _ _ => none⟩

/-- `escapeRegExp` (editorTools.ts lines 50-52):
`s.replace(/[.*+?^${}()|[\]\\]/g, '\\$&')`. -/
def escapeRegExp (s : String) : String :=
  String.join (s.data.map (fun c =>
    if c ∈ ['.', '*', '+', '?', '^', '$', '\x7b', '\x7d', '(', ')', '|', '[', ']', '\\']
    then String.mk ['\\', c] else String.singleton c))

/-- `impl.get_editor_code`: returns `editorStore.currentCode`. -/
def get_editor_code (st : EditorState) : Except String (EditorState × Json) :=
  .ok (st, st.currentCode)

/-- `impl.set_editor_code`: `editorStore.setCode(args.code); return
{ status: 'ok', length: editorStore.currentCode.length }`.  Reading `.length`
after storing a missing `code` property throws (the stored value is
`undefined`). -/
def set_editor_code (st : EditorState) (args : Json) : Except String (EditorState × Json) := do
  let v ← args.getField "code"
  let st' : EditorState := ⟨v⟩
  let len ← jsLength st'.currentCode
  .ok (st', .obj [("status", .str "ok"), ("length", len)])

/-- `editorStore.currentCode ?? ''` used as the receiver of `.replace`:
nullish values become `''`, strings are themselves, anything else has no
`replace` method and throws. -/
def srcForReplace : Json → Except String String
  | .null => .ok ""
  | .undefined => .ok ""
  | .str s => .ok s
  | _ => .error "TypeError: src.replace is not a function"

/-- `impl.replace_in_editor_code` (editorTools.ts lines 64-80). -/
def replace_in_editor_code (eng : RegexEngine) (st : EditorState) (args : Json) :
    Except String (EditorState × Json) := do
  let isRegexV ← args.getField "isRegex"
  let findV ← args.getField "find"
  let pattern ←
    if jsTruthy isRegexV then pure (jsToString findV)
    else match findV with
      | .str s => pure (escapeRegExp s)
      | .null => Except.error "TypeError: cannot read properties of null"
      | .undefined => Except.error "TypeError: cannot read properties of undefined"
      | _ => Except.error "TypeError: args.find.replace is not a function"
  let flagsV ← args.getField "flags"
  let flags := match flagsV with
    | .null => "g"
    | .undefined => "g"
    | v => jsToString v
  match eng.compile pattern flags with
  | none => Except.error "SyntaxError: invalid regular expression"
  | some run => do
    let src ← srcForReplace st.currentCode
    let replV ← args.getField "replace"
    let (out, count) := run src (jsToString replV)
    .ok (⟨.str out⟩,
      .obj [("status", .str "ok"), ("replacements", .num (toString count)),
            ("length", .num (toString out.length))])

/-- The `impl` record lookup `impl[name]` (editorTools.ts lines 54-81). -/
def implLookup (name : String) :
    Option (RegexEngine → EditorState → Json → Except String (EditorState × Json)) :=
  if name = "get_editor_code" then some (fun _ st _ => get_editor_code st)
  else if name = "set_editor_code" then some (fun _ st args => set_editor_code st args)
  else if name = "replace_in_editor_code" then some replace_in_editor_code
  else none

/-- The tool-role result record returned by `executeEditorTool`
(`{role: 'tool', tool_call_id, name, content}`; the constant role is
omitted). -/
structure ApiToolMessageDataM where
  tool_call_id : Option String
  name : String
  content : String
  deriving DecidableEq

/-- `typeof result === 'string' ? result : JSON.stringify(result)`.  The
implementations never return `undefined`, so the fallback is unreachable. -/
def contentOfResult : Json → String
  | .str s => s
  | v => (jsonStringify v).getD "undefined"

/-- `executeEditorTool` (editorTools.ts lines 83-114).  The `Except.error`
outcome is a thrown JavaScript exception escaping the function: the argument
`JSON.parse` is wrapped in try/catch, but the `impl[name](args)` invocation
is NOT, so implementation throws propagate to the caller. -/
def executeEditorTool (eng : RegexEngine) (st : EditorState) (call : ApiToolCall) :
    Except String (EditorState × ApiToolMessageDataM) :=
  match (if call.farguments ≠ "" then parseJson call.farguments else some (Json.obj [])) with
  | none =>
      .ok (st, ⟨call.id, call.fname,
        (jsonStringify (.obj [("error", .str "Invalid JSON arguments"),
                              ("raw", .str call.farguments)])).getD ""⟩)
  | some args =>
      match implLookup call.fname with
      | none =>
          .ok (st, ⟨call.id, call.fname,
            (jsonStringify (.obj [("error",
              .str ("Unknown tool: " ++ call.fname))])).getD ""⟩)
      | some f =>
          match f eng st args with
          | .error e => .error e
          | .ok (st', result) => .ok (st', ⟨call.id, call.fname, contentOfResult result⟩)

/-- Character-list prefix test. -/
def listStartsWith : List Char → List Char → Bool
  | _, [] => true
  | [], _ :: _ => false
  | h :: hs, n :: ns => h = n && listStartsWith hs ns

/-- Character-list substring test. -/
def listHasSub : List Char → List Char → Bool
  | [], needle => listStartsWith [] needle
  | h :: hs, needle => listStartsWith (h :: hs) needle || listHasSub hs needle

/-- Whether a tool-result content string decodes to a JSON object whose
`error` member is a string mentioning the given tool name. -/
def contentNamesTool (content toolName : String) : Bool :=
  match parseJson content with
  | some (.obj kvs) =>
      match objGet kvs "error" with
      | some (.str e) => listHasSub e.data toolName.data
      | _ => false
  | _ => false

/-! ## The stream parser (`ChatService.handleStreamResponse`)

The response body is consumed chunk-by-chunk and split into lines; each line
is classified by its `data: ` prefix, the literal `[DONE]` marker, and
`JSON.parse` of the envelope.  The embedding starts from the classified
lines; the interesting row of the envelope is `choices[0]`, whose `delta`
carries optional `content` and `tool_calls` and whose `finish_reason` may be
set.  `processContentForThinkTags` is invoked by the source but feeds only
the two accumulators `thinkContent`/`regularContent`, which are never read
(they are `eslint-disable`d as unused); that dead computation is omitted. -/

/-- `choices[0]` of one parsed streaming envelope. -/
structure StreamChunk where
  deltaContent : Option String
  deltaToolCalls : List ApiToolCallDelta
  finishReason : Option String
  deriving DecidableEq

/-- One line of the response stream, as classified by
`handleStreamResponse`'s per-line tests. -/
inductive StreamLine where
  /-- A line without the `data: ` prefix — skipped. -/
  | notData
  /-- A `data: ` payload rejected by `JSON.parse` — logged and skipped. -/
  | malformed
  /-- The literal `data: [DONE]` terminator. -/
  | done
  /-- A parsed envelope. -/
  | chunk (c : StreamChunk)
  deriving DecidableEq

/-- Error classification delivered to `onError`. -/
inductive ErrKind where
  /-- The heuristic `ContextError` (empty round). -/
  | contextError
  /-- `AbortError` / `DOMException` from a cancelled fetch. -/
  | abortError
  /-- Any other streaming failure, with its message. -/
  | streamError (msg : String)
  deriving DecidableEq

/-- A callback invocation made by `ChatService` while streaming. -/
inductive StreamEvent where
  | chunkCb (content : String)
  | toolCallsCb (calls : List ApiToolCall)
  | completeCb (response : String)
  | errorCb (kind : ErrKind)
  deriving DecidableEq

/-- The local state of `handleStreamResponse` together with the callback
trace it has emitted; `finished` records the early `return` after `[DONE]`
(subsequent lines are never processed). -/
structure StreamAcc where
  fullResponse : String
  hasReceivedData : Bool
  sawToolCalls : Bool
  buffer : ToolCallBuffer
  events : List StreamEvent
  finished : Bool

/-- Events produced by one flush. -/
def flushEvents (emitted : Option (List ApiToolCall)) : List StreamEvent :=
  match emitted with
  | some cs => [.toolCallsCb cs]
  | none => []

/-- One line of the `for (const line of lines)` loop of
`handleStreamResponse` (chat.ts lines 268-337). -/
def processStreamLine (acc : StreamAcc) (l : StreamLine) : StreamAcc :=
  if acc.finished then acc
  else
    match l with
    | .notData => acc
    | .malformed => acc
    | .done =>
        let (emitted, buf') := flushToolCalls acc.buffer
        let evs := acc.events ++ flushEvents emitted
        if ¬acc.hasReceivedData ∧ ¬acc.sawToolCalls then
          { acc with buffer := buf', events := evs ++ [.errorCb .contextError], finished := true }
        else
          { acc with buffer := buf',
                     events := evs ++ [.completeCb acc.fullResponse], finished := true }
    | .chunk c =>
        let acc :=
          if c.deltaToolCalls ≠ [] then
            { acc with sawToolCalls := true,
                       buffer := c.deltaToolCalls.foldl applyToolCallDelta acc.buffer }
          else acc
        let content := c.deltaContent.getD ""
        let acc :=
          if content ≠ "" then
            { acc with hasReceivedData := true,
                       fullResponse := acc.fullResponse ++ content,
                       events := acc.events ++ [.chunkCb content] }
          else acc
        if c.finishReason = some "tool_calls" then
          let (emitted, buf') := flushToolCalls acc.buffer
          { acc with buffer := buf', events := acc.events ++ flushEvents emitted }
        else acc

/-- The callback trace of `handleStreamResponse` over a whole stream.  If the
transport ends without `[DONE]` (chat.ts lines 340-352) the round is a
context error when nothing was observed, and otherwise flushes leniently and
completes. -/
def handleStreamResponse (lines : List StreamLine) : List StreamEvent :=
  let acc := lines.foldl processStreamLine ⟨"", false, false, [], [], false⟩
  if acc.finished then acc.events
  else if ¬acc.hasReceivedData ∧ ¬acc.sawToolCalls then
    acc.events ++ [.errorCb .contextError]
  else
    acc.events ++ flushEvents (flushToolCalls acc.buffer).1 ++ [.completeCb acc.fullResponse]

/-! ## The round orchestrator (`ChatStore.streamChatCompletion`) -/

/-- Result of separating partial thinking text from the body. -/
structure PartialThinking where
  thinking : String
  remainingContent : String
  deriving DecidableEq

/-- Fuel-indexed scanner behind `extractPartialThinking`. -/
def extractThinkAux : Nat → List Char → Bool → List Char → List Char → PartialThinking
  | 0, _, _, think, body => ⟨String.mk think.reverse, String.mk body.reverse⟩
  | fuel + 1, cs, inside, think, body =>
    match cs with
    | [] => ⟨String.mk think.reverse, String.mk body.reverse⟩
    | c :: rest =>
      if !inside && cs.take 7 = "<think>".data then
        extractThinkAux fuel (cs.drop 7) true think body
      else if inside && cs.take 8 = "</think>".data then
        extractThinkAux fuel (cs.drop 8) false think body
      else if inside then extractThinkAux fuel rest inside (c :: think) body
      else extractThinkAux fuel rest inside think (c :: body)

/-- Modelled from the spec: the orchestrator imports `extractPartialThinking`
from `$lib/utils/thinking`, which is not among the provided sources.  Per
spec §4.3 content is separated into "thinking" segments (text enclosed in the
reasoning delimiter, `<think>…</think>` as in the in-repo
`processContentForThinkTags`) and the delimiter-free body
(`remainingContent`); an unterminated opening delimiter marks the rest of the
text as partial thinking. -/
def extractPartialThinking (s : String) : PartialThinking :=
  extractThinkAux (s.length + 1) s.data false [] []

/-- JS-style whitespace strip from the front of a character list. -/
def dropLeadingWs : List Char → List Char
  | [] => []
  | c :: r => if c = ' ' ∨ c = '\t' ∨ c = '\n' ∨ c = '\r' then dropLeadingWs r else c :: r

/-- `String.prototype.trim` (over the whitespace characters occurring
here). -/
def jsTrim (s : String) : String :=
  String.mk ((dropLeadingWs (dropLeadingWs s.data).reverse).reverse)

/-- `partialThinking.remainingContent || streamedContent` (editor.svelte.ts
lines 254-255, 344-347, 458-461): the delimiter-free body, falling back to
the raw accumulated text when the body is empty. -/
def cleanOf (s : String) : String :=
  let pt := extractPartialThinking s
  if pt.remainingContent = "" then s else pt.remainingContent

/-- A protocol-shaped message appended to `historyTail` during a turn. -/
inductive TailMsg where
  /-- `{role: 'assistant', content}` with plain text. -/
  | assistantText (content : String)
  /-- `{role: 'assistant', content: '', tool_calls}`. -/
  | assistantToolCalls (calls : List ApiToolCall)
  /-- `{role: 'tool', content, tool_call_id, name}`. -/
  | toolResult (callId : Option String) (name : String) (content : String)
  deriving DecidableEq

/-- Whether a tail entry is an assistant tool-call-request message. -/
def TailMsg.isToolCallMsg : TailMsg → Bool
  | .assistantToolCalls _ => true
  | _ => false

/-- `historyTail.splice(historyTail.lastIndexOf(assistantToolCallApiMsg), 0,
textMsg)` (editor.svelte.ts lines 360-367): the orchestrator's
`assistantToolCallApiMsg` variable holds the most recently pushed tool-call
message, which (having been pushed after every earlier tool-call entry and
before no later one within the turn) is the LAST tool-call entry of the
tail; object identity of `lastIndexOf` therefore coincides with
insert-before-the-last-tool-call-entry, falling back to a push when the tail
holds none. -/
def insertBeforeLastTc : List TailMsg → TailMsg → List TailMsg
  | [], txt => [txt]
  | e :: rest, txt =>
    if rest.any TailMsg.isToolCallMsg then e :: insertBeforeLastTc rest txt
    else if e.isToolCallMsg then txt :: e :: rest
    else e :: insertBeforeLastTc rest txt

/-- A message persisted through the message store (`DatabaseService` +
`activeMessages`; both always mutated together here, so one store stands for
the pair). -/
inductive StoredMsg where
  | assistantText (id : Nat) (content : String)
  | assistantToolCalls (id : Nat) (calls : List ApiToolCall)
  | toolResult (id : Nat) (callId : Option String) (name : String) (content : String)
  deriving DecidableEq

/-- The id of a stored message. -/
def StoredMsg.msgId : StoredMsg → Nat
  | .assistantText i _ => i
  | .assistantToolCalls i _ => i
  | .toolResult i _ _ _ => i

/-- Whether a stored message is a tool result. -/
def StoredMsg.isToolResult : StoredMsg → Bool
  | .toolResult _ _ _ _ => true
  | _ => false

/-- `updateMessage(id, {content})` restricted to assistant text messages (the
only ones updated in place). -/
def storeUpdateContent (store : List StoredMsg) (i : Nat) (c : String) : List StoredMsg :=
  store.map (fun m =>
    match m with
    | .assistantText j _ => if j = i then .assistantText j c else m
    | _ => m)

/-- `deleteMessage(id)` (together with the `activeMessages.splice`). -/
def storeDelete (store : List StoredMsg) (i : Nat) : List StoredMsg :=
  store.filter (fun m => m.msgId ≠ i)

/-- `MAX_TOOL_ROUNDS` (editor.svelte.ts line 174). -/
def MAX_TOOL_ROUNDS : Nat := 10

/-- The orchestrator state that survives across rounds of one turn, plus the
observation counters the claims are about (`loadingResets` counts the
`this.isLoading = false` assignments, `responseClears` the
`this.currentResponse = ''` assignments). -/
structure TurnState where
  round : Nat
  sendCount : Nat
  historyTail : List TailMsg
  store : List StoredMsg
  editor : EditorState
  freshId : Nat
  assistantMsgId : Nat
  isLoading : Bool
  currentResponse : String
  loadingResets : Nat
  responseClears : Nat
  didFinalComplete : Bool
  finished : Bool
  capHit : Bool
  contextErrored : Bool
  streamCompleted : Bool
  lastRoundHadText : Bool
  lastCollected : List ApiToolCall

/-- The per-round local variables of the `while (true)` body. -/
structure RoundLocal where
  streamedContent : String
  roundAssistantMsgId : Nat
  createdRound : Bool
  roundHadText : Bool
  hasTcApiMsg : Bool
  collected : List ApiToolCall

/-- `if (!c.id) c.id = crypto.randomUUID()` over a flushed call list, with
the UUID source modelled as a fresh counter. -/
def assignCallIds : Nat → List ApiToolCall → List ApiToolCall × Nat
  | fresh, [] => ([], fresh)
  | fresh, c :: rest =>
    if optTruthy c.id then
      let (cs, f') := assignCallIds fresh rest
      (c :: cs, f')
    else
      let (cs, f') := assignCallIds (fresh + 1) rest
      ({ c with id := some ("uuid-" ++ toString fresh) } :: cs, f')

/-- One `ChatService` callback handled by the orchestrator's round handlers
(`onChunk` lines 250-271, `onToolCalls` lines 273-335, `onComplete` lines
337-374, `onError` lines 376-428 of editor.svelte.ts). -/
def stepRoundEvent (c : TurnState × RoundLocal) (e : StreamEvent) : TurnState × RoundLocal :=
  let (ts, rl) := c
  match e with
  | .chunkCb content =>
      let streamed := rl.streamedContent ++ content
      let clean := cleanOf streamed
      ({ ts with currentResponse := streamed,
                 store := storeUpdateContent ts.store rl.roundAssistantMsgId clean },
       { rl with streamedContent := streamed,
                 roundHadText := rl.roundHadText || jsTrim clean ≠ "" })
  | .toolCallsCb calls =>
      let (calls', f1) := assignCallIds ts.freshId calls
      ({ ts with freshId := f1 + 1,
                 store := ts.store ++ [.assistantToolCalls f1 calls'],
                 historyTail := ts.historyTail ++ [.assistantToolCalls calls'] },
       { rl with collected := rl.collected ++ calls', hasTcApiMsg := true })
  | .completeCb _ =>
      let ts := { ts with streamCompleted := true }
      let finalClean := cleanOf rl.streamedContent
      let ts :=
        if rl.roundHadText then
          { ts with store := storeUpdateContent ts.store rl.roundAssistantMsgId finalClean }
        else ts
      if rl.roundHadText ∧ jsTrim finalClean ≠ "" then
        if rl.hasTcApiMsg then
          ({ ts with historyTail := insertBeforeLastTc ts.historyTail (.assistantText finalClean) },
           rl)
        else
          ({ ts with historyTail := ts.historyTail ++ [.assistantText finalClean] }, rl)
      else (ts, rl)
  | .errorCb kind =>
      match kind with
      | .abortError =>
          ({ ts with isLoading := false, loadingResets := ts.loadingResets + 1,
                     currentResponse := "", responseClears := ts.responseClears + 1 }, rl)
      | .contextError =>
          let ts := { ts with isLoading := false, loadingResets := ts.loadingResets + 1,
                              currentResponse := "", responseClears := ts.responseClears + 1,
                              contextErrored := true }
          let ts :=
            if rl.createdRound ∧ ¬rl.roundHadText then
              { ts with store := storeDelete ts.store rl.roundAssistantMsgId }
            else ts
          (ts, rl)
      | .streamError msg =>
          let ts := { ts with isLoading := false, loadingResets := ts.loadingResets + 1,
                              currentResponse := "", responseClears := ts.responseClears + 1,
                              store := storeUpdateContent ts.store rl.roundAssistantMsgId
                                ("Error: " ++ msg) }
          (ts, rl)

/-- `EXECUTING`: run `executeEditorTool` over the collected calls in
submission order (editor.svelte.ts lines 472-538), threading the editor
state, persisting one tool-result message per call and producing the
API-shaped tail entries.  A thrown implementation error aborts the loop: the
results of the earlier calls stay persisted and the error is reported in the
last component.  The `if (!toolApiMsg.tool_call_id)` / `if (!toolApiMsg.name)`
repairs of the source are applied to each result. -/
def execCalls (eng : RegexEngine) :
    EditorState → Nat → List ApiToolCall →
      List TailMsg × List StoredMsg × EditorState × Nat × Option String
  | ed, fresh, [] => ([], [], ed, fresh, none)
  | ed, fresh, c :: rest =>
    match executeEditorTool eng ed c with
    | .error e => ([], [], ed, fresh, some e)
    | .ok (ed', m) =>
      let tcid := if optTruthy m.tool_call_id then m.tool_call_id else c.id
      let nm := if m.name ≠ "" then m.name else c.fname
      let (tms, sms, ed'', f', err) := execCalls eng ed' (fresh + 1) rest
      (TailMsg.toolResult tcid nm m.content :: tms,
       StoredMsg.toolResult fresh tcid nm m.content :: sms, ed'', f', err)

/-- Round-start placeholder setup (editor.svelte.ts lines 207-234): round 1
reuses the turn's pre-created assistant placeholder; every later round
persists a fresh empty assistant text message of its own
(`createdRoundAssistantMsg = true`). -/
def roundStart (ts : TurnState) : TurnState × RoundLocal :=
  if ts.round = 1 then
    (ts, ⟨"", ts.assistantMsgId, false, false, false, []⟩)
  else
    ({ ts with freshId := ts.freshId + 1,
               store := ts.store ++ [.assistantText ts.freshId ""] },
     ⟨"", ts.freshId, true, false, false, []⟩)

/-- One iteration of the `while (true)` round loop, driven by an already
classified callback trace: the placeholder setup, the callback fold, and the
post-stream decision (editor.svelte.ts lines 431-549).  `streamThrew` models
`handleStreamResponse` rethrowing after its `onError` call (transport
errors, aborts); the exception then propagates out of
`streamChatCompletion`. -/
def runRoundOnTrace (eng : RegexEngine) (ts : TurnState) (trace : List StreamEvent)
    (streamThrew : Bool) : TurnState × Option String :=
  let (ts, rl) := trace.foldl stepRoundEvent (roundStart ts)
  if streamThrew then (ts, some "stream exception") else
  if rl.collected = [] then
    let ts :=
      if rl.createdRound ∧ ¬rl.roundHadText then
        { ts with store := storeDelete ts.store rl.roundAssistantMsgId }
      else ts
    ({ ts with didFinalComplete := true,
               isLoading := false, loadingResets := ts.loadingResets + 1,
               currentResponse := "", responseClears := ts.responseClears + 1,
               finished := true, lastRoundHadText := rl.roundHadText, lastCollected := [] },
     none)
  else
    let finalRoundText := cleanOf rl.streamedContent
    let nonEmpty := rl.roundHadText ∧ jsTrim finalRoundText ≠ ""
    let ts :=
      if rl.createdRound ∧ ¬nonEmpty then
        { ts with store := storeDelete ts.store rl.roundAssistantMsgId }
      else ts
    match execCalls eng ts.editor ts.freshId rl.collected with
    | (tms, sms, ed', f', none) =>
        ({ ts with historyTail := ts.historyTail ++ tms, store := ts.store ++ sms,
                   editor := ed', freshId := f', finished := false,
                   lastRoundHadText := rl.roundHadText, lastCollected := rl.collected },
         none)
    | (_, sms, ed', f', some e) =>
        ({ ts with store := ts.store ++ sms, editor := ed', freshId := f',
                   lastRoundHadText := rl.roundHadText, lastCollected := rl.collected },
         some e)

/-- One round starting from the raw stream lines. -/
def runRound (eng : RegexEngine) (ts : TurnState) (lines : List StreamLine) :
    TurnState × Option String :=
  runRoundOnTrace eng ts (handleStreamResponse lines) false

/-- The round loop of `streamChatCompletion` (editor.svelte.ts lines
197-549): `round++`, the `MAX_TOOL_ROUNDS` guard (which `break`s without any
flag reset), one request (`sendCount`), and continuation while calls were
collected.  The fuel only bounds the recursion; with fuel above
`MAX_TOOL_ROUNDS` the guard always fires first. -/
def streamChatCompletion (eng : RegexEngine) (service : Nat → List StreamLine) :
    Nat → TurnState → TurnState × Option String
  | 0, ts => (ts, none)
  | fuel + 1, ts =>
    let round := ts.round + 1
    if round > MAX_TOOL_ROUNDS then ({ ts with round := round, capHit := true }, none)
    else
      match runRound eng { ts with round := round, sendCount := ts.sendCount + 1 }
          (service round) with
      | (ts', some e) => (ts', some e)
      | (ts', none) =>
          if ts'.finished then (ts', none) else streamChatCompletion eng service fuel ts'

/-- The turn's initial state: `sendMessage` has created the user message and
the assistant placeholder (id 0) and set `isLoading`; `historyTail` starts
empty. -/
def initTurnState : TurnState :=
  { round := 0, sendCount := 0, historyTail := [], store := [.assistantText 0 ""],
    editor := initialEditorState, freshId := 1, assistantMsgId := 0, isLoading := true,
    currentResponse := "", loadingResets := 0, responseClears := 0, didFinalComplete := false,
    finished := false, capHit := false, contextErrored := false, streamCompleted := false,
    lastRoundHadText := false, lastCollected := [] }

/-- A whole turn against a per-round stream. -/
def runTurn (eng : RegexEngine) (service : Nat → List StreamLine) : TurnState × Option String :=
  streamChatCompletion eng service (MAX_TOOL_ROUNDS + 1) initTurnState

/-! ## `injectSystemMessage` (chat.ts lines 704-714) -/

/-- A protocol request message as far as the injection inspects it: only the
role of the first element is read and a text system message may be
prepended, so the multimodal content-part union collapses to its payload. -/
structure ApiRequestMessageM where
  role : String
  content : String
  deriving DecidableEq

/-- `injectSystemMessage`: prepend the trimmed configured system message
unless it is empty or the first message is already a system message. -/
def injectSystemMessage (systemMessageCfg : String) (messages : List ApiRequestMessageM) :
    List ApiRequestMessageM :=
  let systemMessage := jsTrim systemMessageCfg
  if systemMessage = "" then messages
  else
    match messages with
    | first :: _ =>
        if first.role = "system" then messages else ⟨"system", systemMessage⟩ :: messages
    | [] => ⟨"system", systemMessage⟩ :: messages

/-- `sendMessage` line 82: the outgoing `requestBody.messages` is exactly the
injection's output. -/
def sendMessageOutgoing (systemMessageCfg : String) (messages : List ApiRequestMessageM) :
    List ApiRequestMessageM :=
  injectSystemMessage systemMessageCfg messages

/-! ## Helper notions for the claim statements -/

/-- Whether a stream event is a content-chunk callback. -/
def StreamEvent.isChunk : StreamEvent → Bool
  | .chunkCb _ => true
  | _ => false

/-- The text accumulated by folding the chunk callbacks of a trace onto an
initial string (exactly how `streamedContent` grows). -/
def chunksTextFrom (s0 : String) (evs : List StreamEvent) : String :=
  evs.foldl (fun acc e => match e with | .chunkCb s => acc ++ s | _ => acc) s0

/-- The syntactic kind of a tail entry. -/
def TailMsg.kind : TailMsg → String
  | .assistantText _ => "text"
  | .assistantToolCalls _ => "toolCalls"
  | .toolResult _ _ _ => "toolResult"

/-- The message-order contract claimed for a round's `HistoryTail` additions:
one assistant text message immediately before one assistant
tool-call-request message, followed by tool results only. -/
def isClaimedRoundShape : List TailMsg → Bool
  | TailMsg.assistantText _ :: TailMsg.assistantToolCalls _ :: rest =>
      rest.all (fun m => match m with | TailMsg.toolResult _ _ _ => true | _ => false)
  | _ => false

/-- A stream line carrying neither a non-empty content delta nor any
tool-call delta (the antecedent of the context-error heuristic). -/
def noObservation : StreamLine → Bool
  | .chunk c => c.deltaToolCalls.isEmpty && (c.deltaContent.getD "" == "")
  | _ => true

/-- A mock service that emits one complete `get_editor_code` tool call and
terminates, on every round. -/
def alwaysToolCallService : Nat → List StreamLine := fun _ =>
  [StreamLine.chunk ⟨none, [⟨some 0, some "call1", some "get_editor_code", some ""⟩], none⟩,
   StreamLine.done]

/-- A service that streams one text chunk and finishes with no tool calls. -/
def normalFinishService : Nat → List StreamLine := fun _ =>
  [StreamLine.chunk ⟨some "Hello world", [], none⟩, StreamLine.done]

/-- A service whose stream is only the `[DONE]` record. -/
def emptyStreamService : Nat → List StreamLine := fun _ =>
  [StreamLine.done]

/-- A service that requests the unknown tool `frobnicate` (with decodable
arguments) in round 1 and answers plainly in round 2. -/
def unknownToolService : Nat → List StreamLine := fun r =>
  if r = 1 then
    [StreamLine.chunk ⟨none, [⟨some 0, some "x1", some "frobnicate", some "\x7b\x7d"⟩], none⟩,
     StreamLine.done]
  else
    [StreamLine.chunk ⟨some "done", [], none⟩, StreamLine.done]

/-- A round whose stream carries text, a first tool call closed by an
explicit `finish_reason: "tool_calls"` (eager flush), and a second tool-call
delta before `[DONE]` (second flush). -/
def doubleFlushLines : List StreamLine :=
  [StreamLine.chunk ⟨some "Hi", [], none⟩,
   StreamLine.chunk ⟨none, [⟨some 0, some "a", some "get_editor_code", some ""⟩], none⟩,
   StreamLine.chunk ⟨none, [], some "tool_calls"⟩,
   StreamLine.chunk ⟨none, [⟨some 0, some "b", some "get_editor_code", some ""⟩], none⟩,
   StreamLine.done]

/-- C7 counterexample: the unregistered tool name `"frobnicate"` called with
the argument string `"{"` (which `JSON.parse` rejects) returns, without
throwing, a result whose content is the invalid-arguments error object — its
`error` member does NOT name the unknown tool, because `executeEditorTool`
parses the arguments before looking the tool up.  This falsifies the claim
for arbitrary argument strings. -/
theorem executeEditorTool_unknown_tool_counterexample :
    executeEditorTool noRegexEngine initialEditorState ⟨some "c1", "frobnicate", "\x7b"⟩ =
      .ok (initialEditorState,
        ⟨some "c1", "frobnicate",
         "\x7b\"error\":\"Invalid JSON arguments\",\"raw\":\"\x7b\"\x7d"⟩) ∧
    contentNamesTool "\x7b\"error\":\"Invalid JSON arguments\",\"raw\":\"\x7b\"\x7d"
        "frobnicate" = false :=
  ⟨rfl, rfl⟩

/-- C8 (code bug) — `set_editor_code` is a registered implementation, yet
calling it with the argument object `{}` makes its body throw (reading
`.length` of the `undefined` it just stored), and `executeEditorTool`
propagates that exception instead of converting it to an error-shaped tool
result: the `impl[name](args)` invocation is outside any try/catch. -/
theorem executeEditorTool_propagates_implementation_throw :
    (implLookup "set_editor_code").isSome = true ∧
    executeEditorTool noRegexEngine initialEditorState ⟨some "c2", "set_editor_code", "\x7b\x7d"⟩ =
      .error "TypeError: cannot read properties of undefined (reading 'length')" :=
  ⟨rfl, rfl⟩

/-- C4 — flushing an empty Tool-Call Buffer is a no-op (no callback, no state
change), and after any prior delta sequence a flush leaves the buffer empty,
so an immediately repeated flush yields nothing. -/
theorem flushToolCalls_idempotent :
    flushToolCalls [] = (none, []) ∧
    ∀ ds : List ApiToolCallDelta,
      flushToolCalls (flushToolCalls (ds.foldl applyToolCallDelta [])).2 = (none, []) := by
  refine ⟨rfl, fun ds => ?_⟩
  rcases h : ds.foldl applyToolCallDelta [] with _ | ⟨p, rest⟩
  · rfl
  · rfl

/-- C7 amended — for every tool call whose name has no registered
implementation and whose argument string is empty or decodes as JSON,
`executeEditorTool` returns (without throwing, editor state unchanged) a
tool result whose content is the serialised `{error: "Unknown tool: <name>"}`
object; and an unknown-tool round proceeds to the round-2 request with that
result in the history: with `unknownToolService` the turn performs 2 sends
and its `historyTail` holds a `frobnicate` tool result whose content decodes
to an object with an `error` member naming the tool.  (When the argument
string fails to decode, the result instead encodes an invalid-arguments
error — still without throwing — as the counterexample shows.) -/
theorem executeEditorTool_unknown_tool (eng : RegexEngine) (st : EditorState)
    (call : ApiToolCall) (hunk : implLookup call.fname = none)
    (hargs : call.farguments = "" ∨ (parseJson call.farguments).isSome = true) :
    executeEditorTool eng st call =
      .ok (st, ⟨call.id, call.fname,
        (jsonStringify (.obj [("error", .str ("Unknown tool: " ++ call.fname))])).getD ""⟩) ∧
    (runTurn noRegexEngine unknownToolService).1.sendCount = 2 ∧
    ((runTurn noRegexEngine unknownToolService).1.historyTail.any (fun m =>
        match m with
        | TailMsg.toolResult _ nm content =>
            nm = "frobnicate" && contentNamesTool content "frobnicate"
        | _ => false)) = true := by
  refine ⟨?_, rfl, rfl⟩
  unfold executeEditorTool
  rcases hargs with h | h
  · rw [h]
    simp [hunk]
  · by_cases he : call.farguments = ""
    · rw [he]
      simp [hunk]
    · rcases Option.isSome_iff_exists.mp h with ⟨v, hv⟩
      simp [he, hv, hunk]

/-- C7 amended witness: `frobnicate` with argument string `"{}"` yields the
unknown-tool result. -/
theorem executeEditorTool_unknown_tool_witness :
    executeEditorTool noRegexEngine initialEditorState ⟨some "w1", "frobnicate", "\x7b\x7d"⟩ =
      .ok (initialEditorState, ⟨some "w1", "frobnicate",
        (jsonStringify (.obj [("error", .str ("Unknown tool: " ++ "frobnicate"))])).getD ""⟩) ∧
    (runTurn noRegexEngine unknownToolService).1.sendCount = 2 ∧
    ((runTurn noRegexEngine unknownToolService).1.historyTail.any (fun m =>
        match m with
        | TailMsg.toolResult _ nm content =>
            nm = "frobnicate" && contentNamesTool content "frobnicate"
        | _ => false)) = true :=
  executeEditorTool_unknown_tool noRegexEngine initialEditorState
    ⟨some "w1", "frobnicate", "\x7b\x7d"⟩ rfl (Or.inr rfl)

/-- C5 — with a mock service that emits a tool call on every round, the
orchestrator performs exactly 10 rounds (10 completion requests, never an
11th), the `MAX_TOOL_ROUNDS` guard then stops the loop without an exception,
and the 10 tool results persisted in the earlier rounds are all kept in the
message store. -/
theorem roundCap_performs_exactly_ten_rounds :
    (runTurn noRegexEngine alwaysToolCallService).1.sendCount = 10 ∧
    (runTurn noRegexEngine alwaysToolCallService).1.capHit = true ∧
    (runTurn noRegexEngine alwaysToolCallService).2 = none ∧
    ((runTurn noRegexEngine alwaysToolCallService).1.store.filter
        StoredMsg.isToolResult).length = 10 :=
  ⟨rfl, rfl, rfl, rfl⟩

/-- C9 counterexample: the round-cap stop is a terminal transition of the
turn — the loop exits and the turn is over — yet neither `isLoading` nor the
response buffer is reset even once (`break` at the guard skips every reset
site, and the caller's success path performs none), leaving `isLoading`
stuck at `true`.  This falsifies "reset exactly once on every terminal
transition". -/
theorem roundCap_resets_no_flags_counterexample :
    (runTurn noRegexEngine alwaysToolCallService).1.capHit = true ∧
    (runTurn noRegexEngine alwaysToolCallService).1.loadingResets = 0 ∧
    (runTurn noRegexEngine alwaysToolCallService).1.responseClears = 0 ∧
    (runTurn noRegexEngine alwaysToolCallService).1.isLoading = true :=
  ⟨rfl, rfl, rfl, rfl⟩

/-- C9 amended — the reset discipline by terminal path: a normal finish with
zero tool calls resets `isLoading` and clears the response buffer exactly
once; a context-error turn resets both exactly twice (once in `onError`,
once more in the zero-calls finish branch the loop still reaches); an abort
observed mid-stream and any other streaming error reset both exactly once in
`onError` before the rethrow ends the turn; the round-cap stop resets
neither. -/
theorem terminal_flag_resets_by_path :
    ((runTurn noRegexEngine normalFinishService).1.loadingResets = 1 ∧
     (runTurn noRegexEngine normalFinishService).1.responseClears = 1 ∧
     (runTurn noRegexEngine normalFinishService).1.finished = true) ∧
    ((runTurn noRegexEngine emptyStreamService).1.loadingResets = 2 ∧
     (runTurn noRegexEngine emptyStreamService).1.responseClears = 2 ∧
     (runTurn noRegexEngine emptyStreamService).1.contextErrored = true) ∧
    ((runRoundOnTrace noRegexEngine { initTurnState with round := 1, sendCount := 1 }
        [.errorCb .abortError] true).1.loadingResets = 1 ∧
     (runRoundOnTrace noRegexEngine { initTurnState with round := 1, sendCount := 1 }
        [.errorCb .abortError] true).1.responseClears = 1 ∧
     (runRoundOnTrace noRegexEngine { initTurnState with round := 1, sendCount := 1 }
        [.errorCb .abortError] true).2.isSome = true) ∧
    ((runRoundOnTrace noRegexEngine { initTurnState with round := 1, sendCount := 1 }
        [.errorCb (.streamError "network")] true).1.loadingResets = 1 ∧
     (runRoundOnTrace noRegexEngine { initTurnState with round := 1, sendCount := 1 }
        [.errorCb (.streamError "network")] true).1.responseClears = 1) ∧
    ((runTurn noRegexEngine alwaysToolCallService).1.loadingResets = 0 ∧
     (runTurn noRegexEngine alwaysToolCallService).1.responseClears = 0) :=
  ⟨⟨rfl, rfl, rfl⟩, ⟨rfl, rfl, rfl⟩, ⟨rfl, rfl, rfl⟩, ⟨rfl, rfl⟩, ⟨rfl, rfl⟩⟩

/-- C10 — the outgoing message list of `sendMessage` equals the configured
system message (trimmed) prepended to the input list exactly when the
trimmed configuration is non-empty and the first input message's role is not
`system` (vacuously so for an empty input); otherwise it is the input list
itself.  In both branches the input messages appear unmodified. -/
theorem sendMessage_injects_system_message (cfg : String) (msgs : List ApiRequestMessageM) :
    sendMessageOutgoing cfg msgs =
      if jsTrim cfg ≠ "" ∧ (∀ m0 ∈ msgs.head?, m0.role ≠ "system")
      then ⟨"system", jsTrim cfg⟩ :: msgs
      else msgs := by
  unfold sendMessageOutgoing injectSystemMessage
  by_cases hcfg : jsTrim cfg = ""
  · simp [hcfg]
  · rcases msgs with _ | ⟨first, rest⟩
    · simp [hcfg]
    · by_cases hrole : first.role = "system"
      · simp [hcfg, hrole]
      · simp [hcfg, hrole]

/-- C1 counterexample: in a round with non-empty text (`"Hi"`) and two
collected tool calls where the second tool-call delta arrives after the
eager `finish_reason: "tool_calls"` flush, `onToolCalls` fires twice and the
round appends `[toolCalls, text, toolCalls, result, result]` to
`historyTail` — the text is not first and two tool-call-request messages
appear, falsifying the claimed `[text, toolCalls, results…]` order. -/
theorem historyTail_round_order_counterexample :
    (runRound noRegexEngine { initTurnState with round := 1, sendCount := 1 }
        doubleFlushLines).1.lastRoundHadText = true ∧
    (runRound noRegexEngine { initTurnState with round := 1, sendCount := 1 }
        doubleFlushLines).1.lastCollected.length = 2 ∧
    ((runRound noRegexEngine { initTurnState with round := 1, sendCount := 1 }
        doubleFlushLines).1.historyTail.map TailMsg.kind) =
      ["toolCalls", "text", "toolCalls", "toolResult", "toolResult"] ∧
    isClaimedRoundShape
      (runRound noRegexEngine { initTurnState with round := 1, sendCount := 1 }
        doubleFlushLines).1.historyTail = false :=
  ⟨rfl, rfl, rfl, rfl⟩

section EmptyStreamLemmas

/-- Lines after the `[DONE]` early return are never processed. -/
theorem processStreamLine_finished (acc : StreamAcc) (l : StreamLine)
    (h : acc.finished = true) : processStreamLine acc l = acc := by
  unfold processStreamLine
  rw [h]
  rfl

/-- See `processStreamLine_finished`. -/
theorem foldl_processStreamLine_finished (lines : List StreamLine) (acc : StreamAcc)
    (h : acc.finished = true) : lines.foldl processStreamLine acc = acc := by
  induction lines with
  | nil => rfl
  | cons l rest ih => rw [List.foldl_cons, processStreamLine_finished acc l h, ih]

/-- The post-`[DONE]` state of a stream that only produced a context
error. -/
def contextErrAcc : StreamAcc :=
  ⟨"", false, false, [], [.errorCb .contextError], true⟩

/-- Folding observation-free lines leaves the parser state pristine until a
`[DONE]` turns it into the context-error state. -/
theorem noObs_fold (lines : List StreamLine) (h : ∀ l ∈ lines, noObservation l = true) :
    lines.foldl processStreamLine ⟨"", false, false, [], [], false⟩ =
        ⟨"", false, false, [], [], false⟩ ∨
    lines.foldl processStreamLine ⟨"", false, false, [], [], false⟩ = contextErrAcc := by
  induction lines with
  | nil => exact Or.inl rfl
  | cons l rest ih =>
      rw [List.foldl_cons]
      have hl := h l (List.mem_cons_self l rest)
      have hrest := fun l' hl' => h l' (List.mem_cons_of_mem l hl')
      cases l with
      | notData => exact ih hrest
      | malformed => exact ih hrest
      | done =>
          have : processStreamLine ⟨"", false, false, [], [], false⟩ .done = contextErrAcc := rfl
          rw [this, foldl_processStreamLine_finished rest contextErrAcc rfl]
          exact Or.inr rfl
      | chunk c =>
          have hl' := hl
          unfold noObservation at hl'
          rw [Bool.and_eq_true] at hl'
          obtain ⟨h1, h2⟩ := hl'
          have h1' : c.deltaToolCalls = [] := by
            cases hc : c.deltaToolCalls with
            | nil => rfl
            | cons x xs => rw [hc] at h1; exact absurd h1 (by simp [List.isEmpty])
          have h2' : c.deltaContent.getD "" = "" := by simpa using h2
          have hstep : processStreamLine ⟨"", false, false, [], [], false⟩ (.chunk c) =
              ⟨"", false, false, [], [], false⟩ := by
            unfold processStreamLine
            by_cases hf : c.finishReason = some "tool_calls"
            · simp [h1', h2', hf, flushToolCalls, flushEvents]
            · simp [h1', h2', hf]
          rw [hstep]
          exact ih hrest

/-- A stream in which no content and no tool-call delta is ever observed —
whether it ends by `data: [DONE]` or by bare transport end — produces
exactly one callback: the context-classified error (no completion). -/
theorem handleStreamResponse_noObs (lines : List StreamLine)
    (h : ∀ l ∈ lines, noObservation l = true) :
    handleStreamResponse lines = [.errorCb .contextError] := by
  unfold handleStreamResponse
  rcases noObs_fold lines h with hfold | hfold
  · rw [hfold]
    rfl
  · rw [hfold]
    rfl

/-- Deleting a fresh id from a store whose ids are all older is a no-op. -/
theorem storeDelete_all_lt (s : List StoredMsg) (i : Nat)
    (h : ∀ m ∈ s, m.msgId < i) : storeDelete s i = s := by
  unfold storeDelete
  apply List.filter_eq_self.mpr
  intro m hm
  simpa using Nat.ne_of_lt (h m hm)

/-- Deleting the just-appended message with a fresh id removes exactly it. -/
theorem storeDelete_append_last (s : List StoredMsg) (i : Nat) (m : StoredMsg)
    (hm : m.msgId = i) (h : ∀ m' ∈ s, m'.msgId < i) :
    storeDelete (s ++ [m]) i = s := by
  unfold storeDelete
  rw [List.filter_append]
  have h1 : List.filter (fun m' => decide (m'.msgId ≠ i)) [m] = [] := by
    simp [hm]
  have h2 : List.filter (fun m' => decide (m'.msgId ≠ i)) s = s := by
    apply List.filter_eq_self.mpr
    intro m' hm'
    simpa using Nat.ne_of_lt (h m' hm')
  rw [h1, h2, List.append_nil]

end EmptyStreamLemmas

/-- C6 — if a round whose placeholder was created by the round itself (every
round from the second on; round 1 reuses the turn's pre-created placeholder)
streams to its end with no content delta and no tool-call delta ever
observed, then the only `ChatService` callback of the round is the
context-classified error (the completion callback is not invoked), and the
round's placeholder assistant message is deleted from the message store,
leaving the store exactly as it was before the round. -/
theorem emptyStream_contextError_deletes_placeholder (eng : RegexEngine) (ts : TurnState)
    (lines : List StreamLine) (hround : 2 ≤ ts.round)
    (hwf : ∀ m ∈ ts.store, m.msgId < ts.freshId)
    (hobs : ∀ l ∈ lines, noObservation l = true) :
    handleStreamResponse lines = [.errorCb .contextError] ∧
    (runRound eng ts lines).1.store = ts.store ∧
    (runRound eng ts lines).1.contextErrored = true ∧
    (runRound eng ts lines).2 = none := by
  have htr := handleStreamResponse_noObs lines hobs
  have h1 : ¬ts.round = 1 := by omega
  have hd1 : storeDelete (ts.store ++ [StoredMsg.assistantText ts.freshId ""]) ts.freshId
      = ts.store := storeDelete_append_last _ _ _ rfl hwf
  have hd2 : storeDelete ts.store ts.freshId = ts.store := storeDelete_all_lt _ _ hwf
  refine ⟨htr, ?_, ?_, ?_⟩ <;>
    simp [runRound, htr, runRoundOnTrace, roundStart, h1, stepRoundEvent, hd1, hd2]

/-- C6 witness: round 2 of a fresh turn fed only the `data: [DONE]` record
classifies as a context error, completes nothing, and restores the store. -/
theorem emptyStream_contextError_deletes_placeholder_witness :
    handleStreamResponse [StreamLine.done] = [.errorCb .contextError] ∧
    (runRound noRegexEngine { initTurnState with round := 2 } [StreamLine.done]).1.store =
      ({ initTurnState with round := 2 } : TurnState).store ∧
    (runRound noRegexEngine { initTurnState with round := 2 } [StreamLine.done]).1.contextErrored
      = true ∧
    (runRound noRegexEngine { initTurnState with round := 2 } [StreamLine.done]).2 = none :=
  emptyStream_contextError_deletes_placeholder noRegexEngine
    { initTurnState with round := 2 } [StreamLine.done]
    (by decide) (by decide) (by decide)

section RoundOrderLemmas

theorem chunksTextFrom_append (s0 : String) (a b : List StreamEvent) :
    chunksTextFrom s0 (a ++ b) = chunksTextFrom (chunksTextFrom s0 a) b := by
  unfold chunksTextFrom
  rw [List.foldl_append]

/-- Content-chunk callbacks touch only the streamed text, the UI content and
the `roundHadText` flag: the history tail, id counter, editor state and
collected calls are untouched, and `roundHadText` is monotone. -/
theorem chunkFold (evs : List StreamEvent) (hevs : ∀ e ∈ evs, e.isChunk = true)
    (c : TurnState × RoundLocal) :
    (evs.foldl stepRoundEvent c).1.historyTail = c.1.historyTail ∧
    (evs.foldl stepRoundEvent c).1.freshId = c.1.freshId ∧
    (evs.foldl stepRoundEvent c).1.editor = c.1.editor ∧
    (evs.foldl stepRoundEvent c).2.collected = c.2.collected ∧
    (evs.foldl stepRoundEvent c).2.hasTcApiMsg = c.2.hasTcApiMsg ∧
    (evs.foldl stepRoundEvent c).2.createdRound = c.2.createdRound ∧
    (evs.foldl stepRoundEvent c).2.streamedContent = chunksTextFrom c.2.streamedContent evs ∧
    (c.2.roundHadText = true → (evs.foldl stepRoundEvent c).2.roundHadText = true) := by
  induction evs generalizing c with
  | nil => exact ⟨rfl, rfl, rfl, rfl, rfl, rfl, rfl, fun h => h⟩
  | cons e evs ih =>
      cases e with
      | chunkCb s =>
          obtain ⟨ts, rl⟩ := c
          rw [List.foldl_cons]
          have ihx := ih (fun e' he' => hevs e' (List.mem_cons_of_mem _ he'))
            (stepRoundEvent (ts, rl) (.chunkCb s))
          refine ⟨ihx.1, ihx.2.1, ihx.2.2.1, ihx.2.2.2.1, ihx.2.2.2.2.1,
            ihx.2.2.2.2.2.1, ihx.2.2.2.2.2.2.1, fun h => ?_⟩
          have h' : rl.roundHadText = true := h
          exact ihx.2.2.2.2.2.2.2 (by simp [stepRoundEvent, h'])
      | toolCallsCb calls =>
          exact absurd (hevs _ (List.mem_cons_self _ _)) (by simp [StreamEvent.isChunk])
      | completeCb r =>
          exact absurd (hevs _ (List.mem_cons_self _ _)) (by simp [StreamEvent.isChunk])
      | errorCb k =>
          exact absurd (hevs _ (List.mem_cons_self _ _)) (by simp [StreamEvent.isChunk])

/-- If the cleaned final accumulated text of a non-empty chunk run is
non-blank, the run's last chunk callback has set `roundHadText` (it
re-examines the whole accumulated text). -/
theorem chunkFold_hadText (evs : List StreamEvent) (hevs : ∀ e ∈ evs, e.isChunk = true)
    (c : TurnState × RoundLocal) (hne : evs ≠ [])
    (htrim : jsTrim (cleanOf (chunksTextFrom c.2.streamedContent evs)) ≠ "") :
    (evs.foldl stepRoundEvent c).2.roundHadText = true := by
  induction evs generalizing c with
  | nil => exact absurd rfl hne
  | cons e evs ih =>
      cases e with
      | chunkCb s =>
          obtain ⟨ts, rl⟩ := c
          rw [List.foldl_cons]
          rcases evs with _ | ⟨e2, evs2⟩
          · show (rl.roundHadText
                || decide (jsTrim (cleanOf (rl.streamedContent ++ s)) ≠ "")) = true
            have : jsTrim (cleanOf (rl.streamedContent ++ s)) ≠ "" := htrim
            simp [this]
          · exact ih (fun e' he' => hevs e' (List.mem_cons_of_mem _ he')) _ (by simp) htrim
      | toolCallsCb calls =>
          exact absurd (hevs _ (List.mem_cons_self _ _)) (by simp [StreamEvent.isChunk])
      | completeCb r =>
          exact absurd (hevs _ (List.mem_cons_self _ _)) (by simp [StreamEvent.isChunk])
      | errorCb k =>
          exact absurd (hevs _ (List.mem_cons_self _ _)) (by simp [StreamEvent.isChunk])

/-- Inserting before the last tool-call entry of a tail whose last element is
a tool-call entry places the insertion immediately before that element. -/
theorem insertBeforeLastTc_snoc (t : List TailMsg) (x txt : TailMsg)
    (hx : x.isToolCallMsg = true) :
    insertBeforeLastTc (t ++ [x]) txt = t ++ [txt, x] := by
  induction t with
  | nil => simp [insertBeforeLastTc, hx]
  | cons e t ih =>
      show insertBeforeLastTc (e :: (t ++ [x])) txt = e :: (t ++ [txt, x])
      have hany : (t ++ [x]).any TailMsg.isToolCallMsg = true := by
        rw [List.any_append]
        simp [hx]
      simp only [insertBeforeLastTc, hany, if_pos]
      rw [ih]

/-- Id assignment never empties the call list. -/
theorem assignCallIds_ne_nil (f : Nat) (cs : List ApiToolCall) (h : cs ≠ []) :
    (assignCallIds f cs).1 ≠ [] := by
  rcases cs with _ | ⟨c, rest⟩
  · exact absurd rfl h
  · unfold assignCallIds
    by_cases hc : optTruthy c.id
    · simp [hc]
    · simp [hc]

/-- Every successful executor result echoes the call's id and name. -/
theorem executeEditorTool_fields (eng : RegexEngine) (ed : EditorState) (c : ApiToolCall)
    (ed' : EditorState) (m : ApiToolMessageDataM)
    (h : executeEditorTool eng ed c = .ok (ed', m)) :
    m.tool_call_id = c.id ∧ m.name = c.fname := by
  unfold executeEditorTool at h
  split at h
  · rw [Except.ok.injEq, Prod.mk.injEq] at h
    rw [← h.2]
    exact ⟨rfl, rfl⟩
  · split at h
    · rw [Except.ok.injEq, Prod.mk.injEq] at h
      rw [← h.2]
      exact ⟨rfl, rfl⟩
    · split at h
      · exact absurd h (by simp)
      · rw [Except.ok.injEq, Prod.mk.injEq] at h
        rw [← h.2]
        exact ⟨rfl, rfl⟩
  

/-- A successful `execCalls` run yields exactly one tool-result tail entry
per collected call, in submission order, each carrying that call's id and
name. -/
theorem execCalls_results_match (eng : RegexEngine) (cs : List ApiToolCall)
    (ed : EditorState) (f : Nat) (tms : List TailMsg) (sms : List StoredMsg)
    (ed' : EditorState) (f' : Nat)
    (h : execCalls eng ed f cs = (tms, sms, ed', f', none)) :
    List.Forall₂ (fun (m : TailMsg) (c : ApiToolCall) =>
      ∃ content, m = TailMsg.toolResult c.id c.fname content) tms cs := by
  induction cs generalizing ed f tms sms ed' f' with
  | nil =>
      unfold execCalls at h
      rw [Prod.mk.injEq] at h
      rw [← h.1]
      exact List.Forall₂.nil
  | cons c rest ih =>
      unfold execCalls at h
      cases hexec : executeEditorTool eng ed c with
      | error e =>
          rw [hexec] at h
          simp at h
      | ok p =>
          obtain ⟨ed1, m⟩ := p
          rw [hexec] at h
          dsimp only at h
          rcases hrec : execCalls eng ed1 (f + 1) rest with ⟨tms0, sms0, ed2, f2, err⟩
          rw [hrec] at h
          dsimp only at h
          simp only [Prod.mk.injEq] at h
          obtain ⟨htms, _, _, _, herr⟩ := h
          have hrec' : execCalls eng ed1 (f + 1) rest = (tms0, sms0, ed2, f2, none) := by
            rw [hrec, herr]
          have hids := executeEditorTool_fields eng ed c ed1 m hexec
          have hhead : (if optTruthy m.tool_call_id then m.tool_call_id else c.id) = c.id := by
            by_cases ht : optTruthy m.tool_call_id
            · rw [if_pos ht, hids.1]
            · rw [if_neg ht]
          have hname : (if m.name ≠ "" then m.name else c.fname) = c.fname := by
            by_cases hn : m.name = ""
            · rw [if_neg (by simpa using hn)]
            · rw [if_pos hn, hids.2]
          rw [← htms]
          exact List.Forall₂.cons ⟨m.content, by rw [hhead, hname]⟩
            (ih ed1 (f + 1) tms0 sms0 ed2 f2 hrec')

/-- The text-insertion step of `onComplete` when the round had non-blank text
and a tool-call message was pushed. -/
theorem stepComplete_tail_pos (c : TurnState × RoundLocal) (s : String)
    (hhad : c.2.roundHadText = true)
    (htrim : jsTrim (cleanOf c.2.streamedContent) ≠ "")
    (htc : c.2.hasTcApiMsg = true) :
    (stepRoundEvent c (.completeCb s)).1.historyTail =
      insertBeforeLastTc c.1.historyTail
        (.assistantText (cleanOf c.2.streamedContent)) := by
  obtain ⟨ts, rl⟩ := c
  have hhad' : rl.roundHadText = true := hhad
  have htrim' : jsTrim (cleanOf rl.streamedContent) ≠ "" := htrim
  have htc' : rl.hasTcApiMsg = true := htc
  simp [stepRoundEvent, hhad', htrim', htc']

/-- `onComplete` leaves the collected calls, the editor, the id counter and
the round-text bookkeeping untouched. -/
theorem stepComplete_keeps (c : TurnState × RoundLocal) (s : String) :
    (stepRoundEvent c (.completeCb s)).2.collected = c.2.collected ∧
    (stepRoundEvent c (.completeCb s)).1.editor = c.1.editor ∧
    (stepRoundEvent c (.completeCb s)).1.freshId = c.1.freshId ∧
    (stepRoundEvent c (.completeCb s)).2.roundHadText = c.2.roundHadText ∧
    (stepRoundEvent c (.completeCb s)).2.streamedContent = c.2.streamedContent ∧
    (stepRoundEvent c (.completeCb s)).2.createdRound = c.2.createdRound := by
  obtain ⟨ts, rl⟩ := c
  refine ⟨?_, ?_, ?_, ?_, ?_, ?_⟩ <;>
    (simp only [stepRoundEvent]; repeat' split) <;> rfl

/-- The cumulative effect of the callback trace
`pre ++ [toolCallsCb calls] ++ mid ++ [completeCb s]` (chunks, a single flush
and the completion) on a freshly started round. -/
theorem roundTrace_fold (p : TurnState × RoundLocal) (pre mid : List StreamEvent)
    (calls : List ApiToolCall) (s : String)
    (hpre : ∀ e ∈ pre, e.isChunk = true) (hmid : ∀ e ∈ mid, e.isChunk = true)
    (hstream : p.2.streamedContent = "") (hcoll : p.2.collected = [])
    (htc : p.2.hasTcApiMsg = false)
    (htext : jsTrim (cleanOf (chunksTextFrom "" (pre ++ mid))) ≠ "") :
    ((pre ++ StreamEvent.toolCallsCb calls :: (mid ++ [StreamEvent.completeCb s])).foldl
        stepRoundEvent p).1.historyTail
      = p.1.historyTail
        ++ [TailMsg.assistantText (cleanOf (chunksTextFrom "" (pre ++ mid))),
            TailMsg.assistantToolCalls ((assignCallIds p.1.freshId calls).1)] ∧
    ((pre ++ StreamEvent.toolCallsCb calls :: (mid ++ [StreamEvent.completeCb s])).foldl
        stepRoundEvent p).2.collected = (assignCallIds p.1.freshId calls).1 ∧
    ((pre ++ StreamEvent.toolCallsCb calls :: (mid ++ [StreamEvent.completeCb s])).foldl
        stepRoundEvent p).1.editor = p.1.editor ∧
    ((pre ++ StreamEvent.toolCallsCb calls :: (mid ++ [StreamEvent.completeCb s])).foldl
        stepRoundEvent p).1.freshId = (assignCallIds p.1.freshId calls).2 + 1 ∧
    ((pre ++ StreamEvent.toolCallsCb calls :: (mid ++ [StreamEvent.completeCb s])).foldl
        stepRoundEvent p).2.roundHadText = true ∧
    ((pre ++ StreamEvent.toolCallsCb calls :: (mid ++ [StreamEvent.completeCb s])).foldl
        stepRoundEvent p).2.streamedContent = chunksTextFrom "" (pre ++ mid) := by
  have cfA := chunkFold pre hpre p
  have hB : stepRoundEvent (pre.foldl stepRoundEvent p) (.toolCallsCb calls) =
      ({ (pre.foldl stepRoundEvent p).1 with
           freshId := (assignCallIds (pre.foldl stepRoundEvent p).1.freshId calls).2 + 1,
           store := (pre.foldl stepRoundEvent p).1.store
             ++ [.assistantToolCalls
                   ((assignCallIds (pre.foldl stepRoundEvent p).1.freshId calls).2)
                   ((assignCallIds (pre.foldl stepRoundEvent p).1.freshId calls).1)],
           historyTail := (pre.foldl stepRoundEvent p).1.historyTail
             ++ [.assistantToolCalls
                   ((assignCallIds (pre.foldl stepRoundEvent p).1.freshId calls).1)] },
       { (pre.foldl stepRoundEvent p).2 with
           collected := (pre.foldl stepRoundEvent p).2.collected
             ++ (assignCallIds (pre.foldl stepRoundEvent p).1.freshId calls).1,
           hasTcApiMsg := true }) := rfl
  have hfold : (pre ++ StreamEvent.toolCallsCb calls
        :: (mid ++ [StreamEvent.completeCb s])).foldl stepRoundEvent p
      = stepRoundEvent
          (mid.foldl stepRoundEvent
            (stepRoundEvent (pre.foldl stepRoundEvent p) (.toolCallsCb calls)))
          (.completeCb s) := by
    rw [List.foldl_append, List.foldl_cons, List.foldl_append, List.foldl_cons, List.foldl_nil]
  have cfC := chunkFold mid hmid
    (stepRoundEvent (pre.foldl stepRoundEvent p) (.toolCallsCb calls))
  -- streamed text at the completion step
  have hCstream : (mid.foldl stepRoundEvent
        (stepRoundEvent (pre.foldl stepRoundEvent p) (.toolCallsCb calls))).2.streamedContent
      = chunksTextFrom "" (pre ++ mid) := by
    rw [cfC.2.2.2.2.2.2.1, hB]
    show chunksTextFrom (pre.foldl stepRoundEvent p).2.streamedContent mid = _
    rw [cfA.2.2.2.2.2.2.1, hstream, chunksTextFrom_append]
  have hCtc : (mid.foldl stepRoundEvent
        (stepRoundEvent (pre.foldl stepRoundEvent p) (.toolCallsCb calls))).2.hasTcApiMsg
      = true := by
    rw [cfC.2.2.2.2.1, hB]
  have hCcoll : (mid.foldl stepRoundEvent
        (stepRoundEvent (pre.foldl stepRoundEvent p) (.toolCallsCb calls))).2.collected
      = (assignCallIds p.1.freshId calls).1 := by
    rw [cfC.2.2.2.1, hB]
    show (pre.foldl stepRoundEvent p).2.collected
        ++ (assignCallIds (pre.foldl stepRoundEvent p).1.freshId calls).1 = _
    rw [cfA.2.2.2.1, hcoll, cfA.2.1, List.nil_append]
  have hCtail : (mid.foldl stepRoundEvent
        (stepRoundEvent (pre.foldl stepRoundEvent p) (.toolCallsCb calls))).1.historyTail
      = p.1.historyTail
        ++ [TailMsg.assistantToolCalls ((assignCallIds p.1.freshId calls).1)] := by
    rw [cfC.1, hB]
    show (pre.foldl stepRoundEvent p).1.historyTail
        ++ [TailMsg.assistantToolCalls
              ((assignCallIds (pre.foldl stepRoundEvent p).1.freshId calls).1)] = _
    rw [cfA.1, cfA.2.1]
  have hCeditor : (mid.foldl stepRoundEvent
        (stepRoundEvent (pre.foldl stepRoundEvent p) (.toolCallsCb calls))).1.editor
      = p.1.editor := by
    rw [cfC.2.2.1, hB]
    show (pre.foldl stepRoundEvent p).1.editor = _
    rw [cfA.2.2.1]
  have hCfresh : (mid.foldl stepRoundEvent
        (stepRoundEvent (pre.foldl stepRoundEvent p) (.toolCallsCb calls))).1.freshId
      = (assignCallIds p.1.freshId calls).2 + 1 := by
    rw [cfC.2.1, hB]
    show (assignCallIds (pre.foldl stepRoundEvent p).1.freshId calls).2 + 1 = _
    rw [cfA.2.1]
  have hChad : (mid.foldl stepRoundEvent
        (stepRoundEvent (pre.foldl stepRoundEvent p) (.toolCallsCb calls))).2.roundHadText
      = true := by
    by_cases hm : mid = []
    · subst hm
      rw [List.foldl_nil]
      have hBhad : (stepRoundEvent (pre.foldl stepRoundEvent p)
          (.toolCallsCb calls)).2.roundHadText = (pre.foldl stepRoundEvent p).2.roundHadText :=
        by rw [hB]
      rw [hBhad]
      by_cases hp : pre = []
      · exfalso
        apply htext
        subst hp
        rfl
      · apply chunkFold_hadText pre hpre p hp
        rw [hstream]
        rw [List.append_nil] at htext
        exact htext
    · apply chunkFold_hadText mid hmid _ hm
      rw [hB]
      show jsTrim (cleanOf
          (chunksTextFrom (pre.foldl stepRoundEvent p).2.streamedContent mid)) ≠ ""
      rw [cfA.2.2.2.2.2.2.1, hstream, ← chunksTextFrom_append]
      exact htext
  have hDtail := stepComplete_tail_pos
    (mid.foldl stepRoundEvent (stepRoundEvent (pre.foldl stepRoundEvent p) (.toolCallsCb calls)))
    s hChad (by rw [hCstream]; exact htext) hCtc
  have hkeep := stepComplete_keeps
    (mid.foldl stepRoundEvent (stepRoundEvent (pre.foldl stepRoundEvent p) (.toolCallsCb calls)))
    s
  rw [hfold]
  refine ⟨?_, ?_, ?_, ?_, ?_, ?_⟩
  · rw [hDtail, hCstream, hCtail,
      insertBeforeLastTc_snoc _ _ _ (by rfl)]
  · rw [hkeep.1, hCcoll]
  · rw [hkeep.2.1, hCeditor]
  · rw [hkeep.2.2.1, hCfresh]
  · rw [hkeep.2.2.2.1, hChad]
  · rw [hkeep.2.2.2.2.1, hCstream]

/-- The post-stream decision of a round with collected calls, non-blank text
and a successful tool-execution run: the produced tool results are appended
to `historyTail` and nothing is thrown. -/
theorem runRoundOnTrace_toolBranch (eng : RegexEngine) (ts : TurnState)
    (trace : List StreamEvent)
    (hcoll : (trace.foldl stepRoundEvent (roundStart ts)).2.collected ≠ [])
    (hhad : (trace.foldl stepRoundEvent (roundStart ts)).2.roundHadText = true)
    (htrim : jsTrim (cleanOf
      (trace.foldl stepRoundEvent (roundStart ts)).2.streamedContent) ≠ "")
    (tms : List TailMsg) (sms : List StoredMsg) (ed' : EditorState) (f' : Nat)
    (hexec : execCalls eng (trace.foldl stepRoundEvent (roundStart ts)).1.editor
        (trace.foldl stepRoundEvent (roundStart ts)).1.freshId
        (trace.foldl stepRoundEvent (roundStart ts)).2.collected = (tms, sms, ed', f', none)) :
    (runRoundOnTrace eng ts trace false).1.historyTail =
      (trace.foldl stepRoundEvent (roundStart ts)).1.historyTail ++ tms ∧
    (runRoundOnTrace eng ts trace false).2 = none := by
  unfold runRoundOnTrace
  have hdel : ¬((trace.foldl stepRoundEvent (roundStart ts)).2.createdRound = true ∧
      ((trace.foldl stepRoundEvent (roundStart ts)).2.roundHadText = true →
        jsTrim (cleanOf
          (trace.foldl stepRoundEvent (roundStart ts)).2.streamedContent) = "")) :=
    fun h => htrim (h.2 hhad)
  constructor <;>
    simp [hcoll, hdel, hexec]

/-- C1 amended — for every round whose callback trace consists of content
chunks, a SINGLE `onToolCalls` flush delivering a non-empty call list, more
content chunks and the completion callback (the shape `ChatService` produces
when all tool-call deltas are flushed in one batch), if the round's cleaned
final text is non-blank and the tool executions succeed, then the entries
the round appends to `HistoryTail` are exactly: the assistant text message
immediately before the assistant tool-call-request message, followed by one
tool-result message per collected call in call-submission order (each
carrying its call's id and name).  The counterexample shows the claim fails
when a second flush delivers calls after an eager `tool_calls` flush: the
text is then spliced before the LAST tool-call message only. -/
theorem historyTail_round_order (eng : RegexEngine) (ts : TurnState)
    (pre mid : List StreamEvent) (calls : List ApiToolCall) (s : String)
    (tms : List TailMsg) (sms : List StoredMsg) (ed' : EditorState) (f' : Nat)
    (hpre : ∀ e ∈ pre, e.isChunk = true) (hmid : ∀ e ∈ mid, e.isChunk = true)
    (hcalls : calls ≠ [])
    (htext : jsTrim (cleanOf (chunksTextFrom "" (pre ++ mid))) ≠ "")
    (hexec : execCalls eng ts.editor ((assignCallIds (roundStart ts).1.freshId calls).2 + 1)
        ((assignCallIds (roundStart ts).1.freshId calls).1) = (tms, sms, ed', f', none)) :
    (runRoundOnTrace eng ts
        (pre ++ StreamEvent.toolCallsCb calls :: (mid ++ [StreamEvent.completeCb s]))
        false).1.historyTail
      = ts.historyTail
        ++ (TailMsg.assistantText (cleanOf (chunksTextFrom "" (pre ++ mid)))
            :: TailMsg.assistantToolCalls ((assignCallIds (roundStart ts).1.freshId calls).1)
            :: tms) ∧
    List.Forall₂ (fun (m : TailMsg) (c : ApiToolCall) =>
      ∃ content, m = TailMsg.toolResult c.id c.fname content) tms
      ((assignCallIds (roundStart ts).1.freshId calls).1) := by
  have hsS : (roundStart ts).2.streamedContent = "" := by
    unfold roundStart; split <;> rfl
  have hsC : (roundStart ts).2.collected = [] := by
    unfold roundStart; split <;> rfl
  have hsT : (roundStart ts).2.hasTcApiMsg = false := by
    unfold roundStart; split <;> rfl
  have hsTail : (roundStart ts).1.historyTail = ts.historyTail := by
    unfold roundStart; split <;> rfl
  have hsEd : (roundStart ts).1.editor = ts.editor := by
    unfold roundStart; split <;> rfl
  obtain ⟨ftail, fcoll, fed, ffr, fhad, fstr⟩ :=
    roundTrace_fold (roundStart ts) pre mid calls s hpre hmid hsS hsC hsT htext
  have hca : (assignCallIds (roundStart ts).1.freshId calls).1 ≠ [] :=
    assignCallIds_ne_nil _ _ hcalls
  have hbranch := runRoundOnTrace_toolBranch eng ts
      (pre ++ StreamEvent.toolCallsCb calls :: (mid ++ [StreamEvent.completeCb s]))
      (by rw [fcoll]; exact hca) fhad (by rw [fstr]; exact htext) tms sms ed' f'
      (by rw [fed, ffr, fcoll, hsEd]; exact hexec)
  refine ⟨?_, execCalls_results_match eng _ ts.editor _ tms sms ed' f' hexec⟩
  rw [hbranch.1, ftail, hsTail, List.append_assoc]
  rfl

/-- C1 amended witness: one text chunk `"Hello"`, one flush with a single
`get_editor_code` call, then completion, appends exactly
`[assistant text, assistant tool-call request, the one tool result]`. -/
theorem historyTail_round_order_witness :
    (runRoundOnTrace noRegexEngine { initTurnState with round := 1 }
        ([StreamEvent.chunkCb "Hello"]
          ++ StreamEvent.toolCallsCb [⟨none, "get_editor_code", ""⟩]
          :: ([] ++ [StreamEvent.completeCb "Hello"])) false).1.historyTail
      = ({ initTurnState with round := 1 } : TurnState).historyTail
        ++ (TailMsg.assistantText
              (cleanOf (chunksTextFrom "" ([StreamEvent.chunkCb "Hello"] ++ [])))
            :: TailMsg.assistantToolCalls
                ((assignCallIds (roundStart { initTurnState with round := 1 }).1.freshId
                    [⟨none, "get_editor_code", ""⟩]).1)
            :: [TailMsg.toolResult (some "uuid-1") "get_editor_code"
                  "<html lang=\"en\"><body><h1>Hello World!</h1></body></html>"]) ∧
    List.Forall₂ (fun (m : TailMsg) (c : ApiToolCall) =>
      ∃ content, m = TailMsg.toolResult c.id c.fname content)
      [TailMsg.toolResult (some "uuid-1") "get_editor_code"
        "<html lang=\"en\"><body><h1>Hello World!</h1></body></html>"]
      ((assignCallIds (roundStart { initTurnState with round := 1 }).1.freshId
          [⟨none, "get_editor_code", ""⟩]).1) :=
  historyTail_round_order noRegexEngine { initTurnState with round := 1 }
    [StreamEvent.chunkCb "Hello"] [] [⟨none, "get_editor_code", ""⟩] "Hello"
    [TailMsg.toolResult (some "uuid-1") "get_editor_code"
      "<html lang=\"en\"><body><h1>Hello World!</h1></body></html>"]
    [StoredMsg.toolResult 3 (some "uuid-1") "get_editor_code"
      "<html lang=\"en\"><body><h1>Hello World!</h1></body></html>"]
    initialEditorState 4
    (by decide) (by decide) (by decide) (by decide) rfl

end RoundOrderLemmas

end WebuiChat
